import Mathlib

/-!
Shallow embedding of the tenant-scoped real-time event distribution core of
the hotel-management backend (`src/backend/src/websocket/socketServer.js`).

The `SocketServer` class keeps two JS `Map`s:
  `connectedUsers : hotelId -> Set of socketIds` and
  `socketToUser   : socketId -> user info`,
authenticates sockets in a middleware (JWT + Prisma user/hotel lookup),
registers them on connection, tracks socket.io room membership
(`hotel_${hotelId}` and `hotel_${hotelId}_${roomName}`), and exposes
broadcast and presence-query methods.

JS `Map`/`Set` are modelled as insertion-ordered association lists / lists
with set semantics; socket.io room membership is modelled as a per-socket
list of room identifiers (lists of characters, since room identity in the
source is string identity); template-literal interpolation of the numeric
hotel id is modelled by an executable decimal rendering function.
-/

set_option linter.unusedVariables false

namespace HotelWS

/-- Socket identifiers (socket.io assigns an opaque unique string id). -/
abbrev SocketId := String

/-- JSON-like values appearing in event payloads. -/
inductive JsVal where
  | vStr (s : String)
  | vNum (n : Int)
  | vBool (b : Bool)
  | vNull
deriving DecidableEq

/-- A JS object payload: insertion-ordered association list of fields. -/
abbrev Payload := List (String × JsVal)

/-! ### JS `Map` and `Set` semantics -/

/-- Model of `Map.prototype.get`: first binding of the key, if any. -/
def mapGet {α β : Type} [DecidableEq α] (m : List (α × β)) (k : α) : Option β :=
  match m with
  | [] => none
  | (k', v) :: rest => if k' = k then some v else mapGet rest k

/-- Model of `Map.prototype.set`: overwrite in place if the key is present
  (JS `Map` keeps the original insertion position), else append. -/
def mapSet {α β : Type} [DecidableEq α] (m : List (α × β)) (k : α) (v : β) : List (α × β) :=
  match m with
  | [] => [(k, v)]
  | (k', v') :: rest => if k' = k then (k', v) :: rest else (k', v') :: mapSet rest k v

/-- Model of `Map.prototype.delete`: remove the binding(s) of the key. -/
def mapDelete {α β : Type} [DecidableEq α] (m : List (α × β)) (k : α) : List (α × β) :=
  match m with
  | [] => []
  | (k', v') :: rest => if k' = k then mapDelete rest k else (k', v') :: mapDelete rest k

/-- Model of `Set.prototype.add`: no-op when present, else append (insertion order). -/
def setAdd {α : Type} [DecidableEq α] (s : List α) (x : α) : List α :=
  if x ∈ s then s else s ++ [x]

/-- Model of `Set.prototype.delete`: remove the element. -/
def setDelete {α : Type} [DecidableEq α] (s : List α) (x : α) : List α :=
  match s with
  | [] => []
  | y :: rest => if y = x then setDelete rest x else y :: setDelete rest x

/-- Keys of an association list. -/
def keys {α β : Type} (m : List (α × β)) : List α := m.map Prod.fst

/-- A JS `Map` never holds two bindings of one key. -/
def keysNodup {α β : Type} (m : List (α × β)) : Prop := (keys m).Nodup

/-! ### Decimal rendering of hotel ids

Hotel ids are `SERIAL` integers (Prisma/PostgreSQL), so the template
literals `hotel_${hotelId}` interpolate a nonnegative integer rendered in
decimal. `natDigits` is an executable model of that rendering. -/

/-- The decimal digit character of `d` (for `d < 10`; total by clamping). -/
def digitChar (d : Nat) : Char :=
  match d with
  | 0 => '0'
  | 1 => '1'
  | 2 => '2'
  | 3 => '3'
  | 4 => '4'
  | 5 => '5'
  | 6 => '6'
  | 7 => '7'
  | 8 => '8'
  | _ => '9'

/-- Numeric value of a decimal digit character (inverse of `digitChar`). -/
def digitVal (c : Char) : Nat :=
  match c with
  | '0' => 0
  | '1' => 1
  | '2' => 2
  | '3' => 3
  | '4' => 4
  | '5' => 5
  | '6' => 6
  | '7' => 7
  | '8' => 8
  | _ => 9

/-- Fuel-indexed decimal rendering (structural recursion on the fuel). -/
def natDigitsAux (fuel n : Nat) : List Char :=
  match fuel with
  | 0 => []
  | fuel + 1 =>
    if n < 10 then [digitChar n]
    else natDigitsAux fuel (n / 10) ++ [digitChar (n % 10)]

/-- Decimal rendering of a natural number, most significant digit first. -/
def natDigits (n : Nat) : List Char := natDigitsAux (n + 1) n

/-- Decode a digit string back to a number (used to prove injectivity). -/
def decodeDigits (l : List Char) : Nat :=
  l.foldl (fun a c => 10 * a + digitVal c) 0

/-! ### Room identifiers

socket.io rooms are identified by strings; we model them as `List Char`.
`hotel_${socket.hotelId}` with a `null` hotel id renders as `hotel_null`
(JS template-literal semantics). -/

/-- Rendering of `socket.hotelId` inside a template literal. -/
def hidStr (h : Option Nat) : List Char :=
  match h with
  | some n => natDigits n
  | none => String.data "null"

/-- The tenant-wide room `hotel_${hotelId}`. -/
def hotelRoomStr (h : Option Nat) : List Char :=
  String.data "hotel_" ++ hidStr h

/-- The sub-channel room `hotel_${hotelId}_${roomName}`. -/
def subRoomStr (h : Option Nat) (roomName : String) : List Char :=
  hotelRoomStr h ++ '_' :: String.data roomName

/-! ### Data model -/

/-- The authenticated fields attached to a socket by the middleware
  (`socket.userId`, `socket.userRole`, `socket.hotelId`, `socket.userName`,
  `socket.userEmail`). `hotelId` is nullable (`users.hotel_id` is a
  nullable foreign key). -/
structure Conn where
  userId : Nat
  userRole : String
  hotelId : Option Nat
  userName : String
  userEmail : String
deriving DecidableEq

/-- The record stored in `socketToUser`
  (`{ userId, hotelId, role, name, email }`). -/
structure UserInfo where
  userId : Nat
  hotelId : Option Nat
  role : String
  name : String
  email : String
deriving DecidableEq

/-- The object literal built at registration from the socket's fields. -/
def userInfoOf (c : Conn) : UserInfo :=
  { userId := c.userId, hotelId := c.hotelId, role := c.userRole,
    name := c.userName, email := c.userEmail }

/-- A live socket as the server sees it: its authenticated fields plus its
  current socket.io room memberships. -/
structure Sock where
  conn : Conn
  rooms : List (List Char)
deriving DecidableEq

/-- The mutable server state: the two `Map`s of the `SocketServer` class plus
  `io.sockets.sockets` (the live sockets with their room memberships). -/
structure ServerState where
  connectedUsers : List (Nat × List SocketId)
  socketToUser : List (SocketId × UserInfo)
  liveSockets : List (SocketId × Sock)
deriving DecidableEq

/-- The state of a freshly constructed `SocketServer`: empty maps. -/
def initState : ServerState :=
  { connectedUsers := [], socketToUser := [], liveSockets := [] }

/-! ### Session authenticator (the `io.use` middleware) -/

/-- Outcome of token extraction plus `jwt.verify`: the token may be absent,
  may fail verification (malformed / expired / wrong signature all throw),
  or decode to a `userId`. -/
inductive TokenInput where
  | noToken
  | badToken
  | valid (userId : Nat)
deriving DecidableEq

/-- Hotel row as selected by the middleware's Prisma `include`. -/
structure HotelRec where
  id : Nat
  name : String
  subscriptionStatus : String
deriving DecidableEq

/-- User row as used by the middleware. -/
structure UserRec where
  id : Nat
  isActive : Bool
  role : String
  name : String
  email : String
  hotelId : Option Nat
deriving DecidableEq

/-- The external store the middleware queries. -/
structure Db where
  users : List UserRec
  hotels : List HotelRec
deriving DecidableEq

/-- The distinguishable rejection reasons the middleware can produce
  (`next(new Error(...))` with four distinct messages). -/
inductive AuthError where
  | authenticationRequired
  | authenticationFailed
  | invalidUser
  | hotelSubscriptionInactive
deriving DecidableEq

/-- Prisma `include: { hotel: ... }`: resolve the user's hotel relation. -/
def lookupHotel (db : Db) (hid : Option Nat) : Option HotelRec :=
  match hid with
  | some h => db.hotels.find? (fun r => r.id == h)
  | none => none

/-- The socket fields attached on successful authentication. -/
def connOf (u : UserRec) : Conn :=
  { userId := u.id, userRole := u.role, hotelId := u.hotelId,
    userName := u.name, userEmail := u.email }

/-- The authentication middleware (`setupMiddleware`): token check, JWT
  verification, user lookup, active check, hotel subscription check. -/
def authenticate (tok : TokenInput) (db : Db) : Except AuthError Conn :=
  match tok with
  | .noToken => .error .authenticationRequired
  | .badToken => .error .authenticationFailed
  | .valid uid =>
    match db.users.find? (fun u => u.id == uid) with
    | none => .error .invalidUser
    | some u =>
      if !u.isActive then .error .invalidUser
      else
        match lookupHotel db u.hotelId with
        | some hotel =>
          if hotel.subscriptionStatus ≠ "active" ∧ hotel.subscriptionStatus ≠ "trial" then
            .error .hotelSubscriptionInactive
          else .ok (connOf u)
        | none => .ok (connOf u)

/-! ### Connection lifecycle handlers -/

/-- The allow-list of the `join_room` handler. -/
def allowedRooms : List String :=
  ["manager_dashboard", "front_desk", "housekeeping", "room_updates"]

/-- Events emitted by the lifecycle handlers (as opposed to the broadcast
  dispatchers): each constructor is one `emit` site of the source. -/
inductive HandlerEmit where
  | connectedAck (sid : SocketId) (userId : Nat) (name role : String) (hotelId : Option Nat)
  | userConnected (room : List Char) (except : SocketId) (name role : String)
  | roomJoined (sid : SocketId) (room : String)
  | userDisconnected (room : List Char) (except : SocketId) (name role : String)
deriving DecidableEq

/-- The room set a socket holds right after the `connection` handler ran:
  `hotel_${socket.hotelId}` is joined only when `socket.hotelId` is truthy. -/
def connRooms (c : Conn) : List (List Char) :=
  match c.hotelId with
  | some h => [hotelRoomStr (some h)]
  | none => []

/-- The presence-tracking block of the `connection` handler: when
  `socket.hotelId` is truthy, create the tenant's `Set` if missing and add
  the socket id. -/
def registerPresence (cu : List (Nat × List SocketId)) (hid : Option Nat)
    (sid : SocketId) : List (Nat × List SocketId) :=
  match hid with
  | some h =>
    match mapGet cu h with
    | some s => mapSet cu h (setAdd s sid)
    | none => mapSet cu h (setAdd [] sid)
  | none => cu

/-- The `connection` handler: join the tenant room and register presence
  (both only when `socket.hotelId` is truthy), record the identity,
  acknowledge, and notify the tenant room. -/
def onConnection (st : ServerState) (sid : SocketId) (c : Conn) :
    ServerState × List HandlerEmit :=
  ({ connectedUsers := registerPresence st.connectedUsers c.hotelId sid,
     socketToUser := mapSet st.socketToUser sid (userInfoOf c),
     liveSockets := mapSet st.liveSockets sid { conn := c, rooms := connRooms c } },
   [ .connectedAck sid c.userId c.userName c.userRole c.hotelId,
     .userConnected (hotelRoomStr c.hotelId) sid c.userName c.userRole ])

/-- The socket after `socket.join(hotelRoom)`: its room set gains the
  tenant-scoped sub-channel room. -/
def joinedSock (sock : Sock) (roomName : String) : Sock :=
  { sock with rooms := setAdd sock.rooms (subRoomStr sock.conn.hotelId roomName) }

/-- The `join_room` handler: silently ignore names outside the allow-list;
  otherwise join `hotel_${socket.hotelId}_${roomName}` and acknowledge. -/
def onJoinRoom (st : ServerState) (sid : SocketId) (roomName : String) :
    ServerState × List HandlerEmit :=
  match mapGet st.liveSockets sid with
  | none => (st, [])
  | some sock =>
    if roomName ∈ allowedRooms then
      ({ st with liveSockets := mapSet st.liveSockets sid (joinedSock sock roomName) },
       [.roomJoined sid roomName])
    else (st, [])

/-- The presence-cleanup block of the `disconnect` handler: when
  `socket.hotelId` is truthy and the tenant has a set, delete the socket id
  and garbage-collect the set if it became empty. -/
def removePresence (cu : List (Nat × List SocketId)) (hid : Option Nat)
    (sid : SocketId) : List (Nat × List SocketId) :=
  match hid with
  | some h =>
    match mapGet cu h with
    | some s =>
      let s' := setDelete s sid
      if s'.length = 0 then mapDelete cu h
      else mapSet cu h s'
    | none => cu
  | none => cu

/-- The `disconnect` handler: remove the socket from its tenant's set,
  garbage-collect an emptied set, drop the identity record, and notify the
  tenant room; the socket also leaves `io.sockets.sockets`. -/
def onDisconnect (st : ServerState) (sid : SocketId) (c : Conn) :
    ServerState × List HandlerEmit :=
  ({ connectedUsers := removePresence st.connectedUsers c.hotelId sid,
     socketToUser := mapDelete st.socketToUser sid,
     liveSockets := mapDelete st.liveSockets sid },
   match c.hotelId with
   | some h => [.userDisconnected (hotelRoomStr (some h)) sid c.userName c.userRole]
   | none => [])

/-- A full connection attempt: run the middleware; on failure the socket is
  refused and no handler runs, on success the `connection` handler runs. -/
inductive AttemptResult where
  | refused (e : AuthError)
  | admitted (c : Conn)
deriving DecidableEq

/-- Middleware plus `connection` handler, as socket.io sequences them. -/
def handleConnectionAttempt (st : ServerState) (sid : SocketId)
    (tok : TokenInput) (db : Db) : ServerState × AttemptResult :=
  match authenticate tok db with
  | .error e => (st, .refused e)
  | .ok c => ((onConnection st sid c).1, .admitted c)

/-! ### Broadcast dispatchers and presence queries -/

/-- Model of `{...data, timestamp: new Date().toISOString()}`: spread the caller
  payload, then bind `timestamp` to the server clock reading `now`
  (overriding in place any caller-supplied `timestamp` field). -/
def stamp (data : Payload) (now : String) : Payload :=
  mapSet data "timestamp" (.vStr now)

/-- A delivery: recipient socket, event name, payload. -/
abbrev Delivery := SocketId × String × Payload

/-- Method `broadcastToHotel`: emit to every live socket in room
  `hotel_${hotelId}`, payload stamped with the server clock. -/
def broadcastToHotel (st : ServerState) (hotelId : Nat) (event : String)
    (data : Payload) (now : String) : List Delivery :=
  (st.liveSockets.filter
      (fun p => decide (hotelRoomStr (some hotelId) ∈ p.2.rooms))).map
    (fun p => (p.1, event, stamp data now))

/-- Method `broadcastToRole`: return early when the tenant has no entry; otherwise
  iterate the tenant's socket-id set, look each socket up in
  `io.sockets.sockets`, and emit to those whose `userRole` matches. -/
def broadcastToRole (st : ServerState) (hotelId : Nat) (role event : String)
    (data : Payload) (now : String) : List Delivery :=
  match mapGet st.connectedUsers hotelId with
  | none => []
  | some s =>
    s.filterMap (fun sid =>
      match mapGet st.liveSockets sid with
      | some sock =>
        if sock.conn.userRole = role then some (sid, event, stamp data now)
        else none
      | none => none)

/-- Method `broadcastToRoom`: emit to every live socket in room
  `hotel_${hotelId}_${roomName}`. -/
def broadcastToRoom (st : ServerState) (hotelId : Nat) (roomName event : String)
    (data : Payload) (now : String) : List Delivery :=
  (st.liveSockets.filter
      (fun p => decide (subRoomStr (some hotelId) roomName ∈ p.2.rooms))).map
    (fun p => (p.1, event, stamp data now))

/-- Method `getConnectedUsersCount`: `this.connectedUsers.get(hotelId)?.size || 0`. -/
def getConnectedUsersCount (st : ServerState) (hotelId : Nat) : Nat :=
  match mapGet st.connectedUsers hotelId with
  | some s => s.length
  | none => 0

/-- Method `getConnectedUsers`: map the tenant's socket ids through `socketToUser`
  and drop misses (`.filter(Boolean)`). -/
def getConnectedUsers (st : ServerState) (hotelId : Nat) : List UserInfo :=
  match mapGet st.connectedUsers hotelId with
  | some s => s.filterMap (fun sid => mapGet st.socketToUser sid)
  | none => []

/-! ### Reachability -/

/-- One server event, as dispatched by the single-threaded runtime. A
  `connection` may carry any authenticated identity (the middleware can
  produce any `Conn` depending on the external store); its socket id is
  fresh among live sockets. `join_room` and `disconnect` fire on live
  sockets (for `join_room` the non-live case is a no-op in the model). -/
inductive Step : ServerState → ServerState → Prop where
  | connect (st : ServerState) (sid : SocketId) (c : Conn)
      (hfresh : mapGet st.liveSockets sid = none) :
      Step st (onConnection st sid c).1
  | joinRoom (st : ServerState) (sid : SocketId) (roomName : String) :
      Step st (onJoinRoom st sid roomName).1
  | disconnect (st : ServerState) (sid : SocketId) (sock : Sock)
      (hlive : mapGet st.liveSockets sid = some sock) :
      Step st (onDisconnect st sid sock.conn).1

/-- States reachable from a freshly constructed server. -/
inductive Reachable : ServerState → Prop where
  | init : Reachable initState
  | step {st st' : ServerState} : Reachable st → Step st st' → Reachable st'

/-! ### Association list and set lemmas -/

section MapLemmas

variable {α β : Type} [DecidableEq α]

theorem keysNodup_cons {k : α} {v : β} {m : List (α × β)} :
    keysNodup ((k, v) :: m) ↔ k ∉ keys m ∧ keysNodup m := by
  simp [keysNodup, keys]

theorem mem_keys_of_mem {k : α} {v : β} {m : List (α × β)} (h : (k, v) ∈ m) :
    k ∈ keys m :=
  List.mem_map_of_mem Prod.fst h

theorem mapGet_eq_none_iff (m : List (α × β)) (k : α) :
    mapGet m k = none ↔ k ∉ keys m := by
  induction m with
  | nil => simp [mapGet, keys]
  | cons p rest ih =>
    obtain ⟨k', v⟩ := p
    by_cases h : k' = k
    · subst h
      simp [mapGet, keys]
    · have hk : ¬k = k' := fun hh => h hh.symm
      simp [mapGet, keys, h, hk, ih]

theorem mapGet_mem {m : List (α × β)} {k : α} {v : β}
    (h : mapGet m k = some v) : (k, v) ∈ m := by
  induction m with
  | nil => simp [mapGet] at h
  | cons p rest ih =>
    obtain ⟨k', v'⟩ := p
    by_cases hk : k' = k
    · subst hk
      simp [mapGet] at h
      subst h
      exact List.mem_cons_self _ _
    · simp [mapGet, hk] at h
      exact List.mem_cons_of_mem _ (ih h)

theorem mem_mapGet {m : List (α × β)} {k : α} {v : β}
    (hnd : keysNodup m) (h : (k, v) ∈ m) : mapGet m k = some v := by
  induction m with
  | nil => simp at h
  | cons p rest ih =>
    obtain ⟨k', v'⟩ := p
    rw [keysNodup_cons] at hnd
    rcases List.mem_cons.1 h with h1 | h1
    · injection h1 with hk hv
      subst hk
      subst hv
      simp [mapGet]
    · have hk : ¬k' = k := by
        intro hkk
        subst hkk
        exact hnd.1 (mem_keys_of_mem h1)
      simp [mapGet, hk]
      exact ih hnd.2 h1

theorem mapGet_mapSet_self (m : List (α × β)) (k : α) (v : β) :
    mapGet (mapSet m k v) k = some v := by
  induction m with
  | nil => simp [mapSet, mapGet]
  | cons p rest ih =>
    obtain ⟨k', v'⟩ := p
    by_cases h : k' = k <;> simp [mapSet, mapGet, h, ih]

theorem mapGet_mapSet_ne (m : List (α × β)) {k k' : α} (v : β) (h : k' ≠ k) :
    mapGet (mapSet m k v) k' = mapGet m k' := by
  induction m with
  | nil => simp [mapSet, mapGet, Ne.symm h]
  | cons p rest ih =>
    obtain ⟨k0, v0⟩ := p
    by_cases h0 : k0 = k
    · simp [mapSet, mapGet, h0, h, Ne.symm h]
    · by_cases h1 : k0 = k' <;> simp [mapSet, mapGet, h0, h1, ih, h, Ne.symm h]

theorem mapGet_mapDelete_self (m : List (α × β)) (k : α) :
    mapGet (mapDelete m k) k = none := by
  induction m with
  | nil => simp [mapDelete, mapGet]
  | cons p rest ih =>
    obtain ⟨k', v'⟩ := p
    by_cases h : k' = k <;> simp [mapDelete, mapGet, h, ih]

theorem mapGet_mapDelete_ne (m : List (α × β)) {k k' : α} (h : k' ≠ k) :
    mapGet (mapDelete m k) k' = mapGet m k' := by
  induction m with
  | nil => simp [mapDelete, mapGet]
  | cons p rest ih =>
    obtain ⟨k0, v0⟩ := p
    by_cases h0 : k0 = k
    · simp [mapDelete, mapGet, h0, ih, h, Ne.symm h]
    · by_cases h1 : k0 = k' <;> simp [mapDelete, mapGet, h0, h1, ih, h, Ne.symm h]

theorem keys_mapSet (m : List (α × β)) (k : α) (v : β) :
    keys (mapSet m k v) = if k ∈ keys m then keys m else keys m ++ [k] := by
  induction m with
  | nil => simp [mapSet, keys]
  | cons p rest ih =>
    obtain ⟨k', v'⟩ := p
    by_cases h : k' = k
    · subst h
      simp [mapSet, keys]
    · have hne : ¬k = k' := fun hh => h hh.symm
      have hstep : mapSet ((k', v') :: rest) k v = (k', v') :: mapSet rest k v := by
        simp [mapSet, h]
      rw [hstep]
      have hk1 : keys ((k', v') :: mapSet rest k v) = k' :: keys (mapSet rest k v) := rfl
      have hk2 : keys ((k', v') :: rest) = k' :: keys rest := rfl
      rw [hk1, hk2, ih]
      by_cases h2 : k ∈ keys rest
      · rw [if_pos h2, if_pos (List.mem_cons_of_mem _ h2)]
      · rw [if_neg h2, if_neg (by
          rw [List.mem_cons]
          rintro (hc | hc)
          · exact hne hc
          · exact h2 hc)]
        rfl

theorem keysNodup_mapSet {m : List (α × β)} (k : α) (v : β)
    (h : keysNodup m) : keysNodup (mapSet m k v) := by
  unfold keysNodup at *
  rw [keys_mapSet]
  by_cases hk : k ∈ keys m
  · simpa [hk] using h
  · rw [if_neg hk, List.nodup_append]
    refine ⟨h, List.nodup_singleton k, ?_⟩
    intro a ha hb
    rw [List.mem_singleton] at hb
    subst hb
    exact hk ha

theorem keys_mapDelete_sublist (m : List (α × β)) (k : α) :
    (keys (mapDelete m k)).Sublist (keys m) := by
  induction m with
  | nil => simp [mapDelete, keys]
  | cons p rest ih =>
    obtain ⟨k', v'⟩ := p
    by_cases h : k' = k
    · simpa [mapDelete, keys, h] using ih.cons k'
    · simpa [mapDelete, keys, h] using ih.cons₂ k'

theorem keysNodup_mapDelete {m : List (α × β)} (k : α)
    (h : keysNodup m) : keysNodup (mapDelete m k) :=
  (keys_mapDelete_sublist m k).nodup h

theorem mapSet_eq_self {m : List (α × β)} {k : α} {v : β}
    (h : mapGet m k = some v) : mapSet m k v = m := by
  induction m with
  | nil => simp [mapGet] at h
  | cons p rest ih =>
    obtain ⟨k', v'⟩ := p
    by_cases hk : k' = k
    · simp [mapGet, hk] at h
      simp [mapSet, hk, h]
    · simp [mapGet, hk] at h
      simp [mapSet, hk, ih h]

theorem mapDelete_eq_self {m : List (α × β)} {k : α}
    (h : mapGet m k = none) : mapDelete m k = m := by
  induction m with
  | nil => simp [mapDelete]
  | cons p rest ih =>
    obtain ⟨k', v'⟩ := p
    by_cases hk : k' = k
    · simp [mapGet, hk] at h
    · simp [mapGet, hk] at h
      simp [mapDelete, hk, ih h]

theorem mapDelete_idem (m : List (α × β)) (k : α) :
    mapDelete (mapDelete m k) k = mapDelete m k :=
  mapDelete_eq_self (mapGet_mapDelete_self m k)

end MapLemmas

section SetLemmas

variable {α : Type} [DecidableEq α]

theorem mem_setAdd (s : List α) (x y : α) :
    y ∈ setAdd s x ↔ y ∈ s ∨ y = x := by
  unfold setAdd
  by_cases h : x ∈ s
  · rw [if_pos h]
    constructor
    · exact Or.inl
    · rintro (hy | rfl)
      · exact hy
      · exact h
  · rw [if_neg h]
    simp

theorem nodup_setAdd {s : List α} (x : α) (h : s.Nodup) :
    (setAdd s x).Nodup := by
  unfold setAdd
  by_cases hx : x ∈ s
  · rwa [if_pos hx]
  · rw [if_neg hx, List.nodup_append]
    exact ⟨h, List.nodup_singleton x, by
      intro a ha hb
      rw [List.mem_singleton] at hb
      subst hb
      exact hx ha⟩

theorem setAdd_ne_nil (s : List α) (x : α) : setAdd s x ≠ [] := by
  unfold setAdd
  by_cases hx : x ∈ s
  · rw [if_pos hx]
    rintro rfl
    simp at hx
  · rw [if_neg hx]
    simp

theorem mem_setDelete (s : List α) (x y : α) :
    y ∈ setDelete s x ↔ y ∈ s ∧ y ≠ x := by
  induction s with
  | nil => simp [setDelete]
  | cons a rest ih =>
    unfold setDelete
    by_cases h : a = x
    · subst h
      rw [if_pos rfl, ih, List.mem_cons]
      constructor
      · rintro ⟨hy, hne⟩
        exact ⟨Or.inr hy, hne⟩
      · rintro ⟨hy | hy, hne⟩
        · exact absurd hy hne
        · exact ⟨hy, hne⟩
    · rw [if_neg h, List.mem_cons, List.mem_cons, ih]
      constructor
      · rintro (rfl | ⟨hy, hne⟩)
        · exact ⟨Or.inl rfl, h⟩
        · exact ⟨Or.inr hy, hne⟩
      · rintro ⟨rfl | hy, hne⟩
        · exact Or.inl rfl
        · exact Or.inr ⟨hy, hne⟩

theorem setDelete_sublist (s : List α) (x : α) : (setDelete s x).Sublist s := by
  induction s with
  | nil => simp [setDelete]
  | cons a rest ih =>
    by_cases h : a = x
    · simpa [setDelete, h] using ih.cons a
    · simpa [setDelete, h] using ih.cons₂ a

theorem nodup_setDelete {s : List α} (x : α) (h : s.Nodup) :
    (setDelete s x).Nodup :=
  (setDelete_sublist s x).nodup h

theorem setDelete_eq_self {s : List α} {x : α} (h : x ∉ s) :
    setDelete s x = s := by
  induction s with
  | nil => simp [setDelete]
  | cons a rest ih =>
    simp at h
    have : a ≠ x := fun hh => h.1 hh.symm
    simp [setDelete, this, ih h.2]

theorem setDelete_eq_erase {s : List α} (x : α) (h : s.Nodup) :
    setDelete s x = s.erase x := by
  induction s with
  | nil => simp [setDelete]
  | cons a rest ih =>
    simp at h
    by_cases hx : a = x
    · subst hx
      rw [List.erase_cons_head]
      simp [setDelete]
      exact setDelete_eq_self h.1
    · rw [List.erase_cons_tail (by simp [hx])]
      simp [setDelete, hx, ih h.2]

theorem perm_setDelete {s : List α} {x : α} (hnd : s.Nodup) (hx : x ∈ s) :
    s.Perm (x :: setDelete s x) := by
  rw [setDelete_eq_erase x hnd]
  exact List.perm_cons_erase hx

theorem length_setDelete {s : List α} {x : α} (hnd : s.Nodup) (hx : x ∈ s) :
    (setDelete s x).length + 1 = s.length := by
  have h := (perm_setDelete hnd hx).length_eq
  rw [List.length_cons] at h
  omega

end SetLemmas

/-! ### Decimal rendering lemmas -/

theorem digitChar_ne_underscore (d : Nat) : digitChar d ≠ '_' := by
  unfold digitChar
  split <;> decide

theorem digitVal_digitChar {d : Nat} (h : d < 10) : digitVal (digitChar d) = d := by
  interval_cases d <;> rfl

theorem decodeDigits_append (l : List Char) (c : Char) :
    decodeDigits (l ++ [c]) = 10 * decodeDigits l + digitVal c := by
  unfold decodeDigits
  rw [List.foldl_append]
  rfl

theorem decode_natDigitsAux (fuel : Nat) :
    ∀ n : Nat, n < fuel → decodeDigits (natDigitsAux fuel n) = n := by
  induction fuel with
  | zero => intro n h; omega
  | succ fuel ih =>
    intro n h
    unfold natDigitsAux
    by_cases h10 : n < 10
    · simp [h10, decodeDigits, List.foldl, digitVal_digitChar h10]
    · have hdiv : n / 10 < fuel := by omega
      simp [h10, decodeDigits_append, ih (n / 10) hdiv,
        digitVal_digitChar (Nat.mod_lt n (by omega))]
      omega

theorem decode_natDigits (n : Nat) : decodeDigits (natDigits n) = n :=
  decode_natDigitsAux (n + 1) n (Nat.lt_succ_self n)

theorem natDigits_inj {a b : Nat} (h : natDigits a = natDigits b) : a = b := by
  have := decode_natDigits a
  rw [h, decode_natDigits b] at this
  exact this.symm

theorem underscore_not_mem_natDigitsAux (fuel : Nat) :
    ∀ n : Nat, '_' ∉ natDigitsAux fuel n := by
  induction fuel with
  | zero => intro n; simp [natDigitsAux]
  | succ fuel ih =>
    intro n
    unfold natDigitsAux
    by_cases h10 : n < 10
    · simp [h10]
      exact (digitChar_ne_underscore n).symm
    · simp [h10]
      refine ⟨ih (n / 10), ?_⟩
      exact (digitChar_ne_underscore (n % 10)).symm

theorem underscore_not_mem_natDigits (n : Nat) : '_' ∉ natDigits n :=
  underscore_not_mem_natDigitsAux (n + 1) n

/-! ### Room identifier disequalities -/

theorem underscore_split_inj :
    ∀ (a1 : List Char) (b1 : List Char) (a2 : List Char) (b2 : List Char),
      a1 ++ '_' :: b1 = a2 ++ '_' :: b2 → '_' ∉ a1 → '_' ∉ a2 → a1 = a2 := by
  intro a1
  induction a1 with
  | nil =>
    intro b1 a2 b2 heq h1 h2
    cases a2 with
    | nil => rfl
    | cons c rest =>
      simp at heq
      rcases heq with ⟨rfl, -⟩
      exact absurd (List.mem_cons_self _ _) h2
  | cons c rest ih =>
    intro b1 a2 b2 heq h1 h2
    cases a2 with
    | nil =>
      simp at heq
      rcases heq with ⟨rfl, -⟩
      exact absurd (List.mem_cons_self _ _) h1
    | cons c' rest' =>
      simp at heq
      obtain ⟨rfl, heq2⟩ := heq
      simp at h1 h2
      rw [ih b1 rest' b2 heq2 h1.2 h2.2]

theorem hotelRoomStr_inj {T U : Nat} (h : T ≠ U) :
    hotelRoomStr (some T) ≠ hotelRoomStr (some U) := by
  unfold hotelRoomStr hidStr
  intro heq
  exact h (natDigits_inj (List.append_cancel_left heq))

theorem hotelRoomStr_ne_subRoomStr (U T : Nat) (name : String) :
    hotelRoomStr (some U) ≠ subRoomStr (some T) name := by
  unfold subRoomStr hotelRoomStr hidStr
  rw [List.append_assoc]
  intro heq
  have hdig : natDigits U = natDigits T ++ '_' :: String.data name :=
    List.append_cancel_left heq
  have hmem : '_' ∈ natDigits U := by
    rw [hdig]
    exact List.mem_append.2 (Or.inr (List.mem_cons_self _ _))
  exact underscore_not_mem_natDigits U hmem

theorem subRoomStr_tenant_inj {T U : Nat} (h : T ≠ U) (n1 n2 : String) :
    subRoomStr (some T) n1 ≠ subRoomStr (some U) n2 := by
  unfold subRoomStr hotelRoomStr hidStr
  rw [List.append_assoc, List.append_assoc]
  intro heq
  have hdig : natDigits T ++ '_' :: String.data n1
      = natDigits U ++ '_' :: String.data n2 :=
    List.append_cancel_left heq
  exact h (natDigits_inj (underscore_split_inj _ _ _ _ hdig
    (underscore_not_mem_natDigits T) (underscore_not_mem_natDigits U)))

/-! ### The presence invariant -/

/-- The registry invariant of reachable server states: the three maps have
  set-like keys; every tenant entry is a nonempty duplicate-free set of
  socket ids of live sockets of that tenant; every live socket is recorded
  in the identity index, is registered under its own tenant (when it has
  one), and only ever occupies its own tenant's rooms. -/
structure Inv (st : ServerState) : Prop where
  cuKeys : keysNodup st.connectedUsers
  suKeys : keysNodup st.socketToUser
  lsKeys : keysNodup st.liveSockets
  cuSound : ∀ h s, mapGet st.connectedUsers h = some s →
    s ≠ [] ∧ s.Nodup ∧
      ∀ sid ∈ s, ∃ sock, mapGet st.liveSockets sid = some sock ∧
        sock.conn.hotelId = some h
  lsSound : ∀ sid sock, mapGet st.liveSockets sid = some sock →
    mapGet st.socketToUser sid = some (userInfoOf sock.conn) ∧
    (∀ h, sock.conn.hotelId = some h →
      ∃ s, mapGet st.connectedUsers h = some s ∧ sid ∈ s) ∧
    (∀ r ∈ sock.rooms, r = hotelRoomStr sock.conn.hotelId ∨
      ∃ n, r = subRoomStr sock.conn.hotelId n)

theorem inv_init : Inv initState := by
  constructor <;> simp [initState, keysNodup, keys, mapGet]

/-! ### Access lemmas for the presence-tracking blocks -/

theorem registerPresence_get_self (cu : List (Nat × List SocketId)) (h : Nat)
    (sid : SocketId) :
    mapGet (registerPresence cu (some h) sid) h
      = some (setAdd ((mapGet cu h).getD []) sid) := by
  cases hcu : mapGet cu h <;> simp [registerPresence, hcu, mapGet_mapSet_self]

theorem registerPresence_get_ne (cu : List (Nat × List SocketId)) {h h' : Nat}
    (sid : SocketId) (hne : h' ≠ h) :
    mapGet (registerPresence cu (some h) sid) h' = mapGet cu h' := by
  cases hcu : mapGet cu h <;> simp [registerPresence, hcu, mapGet_mapSet_ne _ _ hne]

theorem keysNodup_registerPresence (cu : List (Nat × List SocketId))
    (hid : Option Nat) (sid : SocketId) (hk : keysNodup cu) :
    keysNodup (registerPresence cu hid sid) := by
  cases hid with
  | none => exact hk
  | some h => cases hcu : mapGet cu h <;>
      simp [registerPresence, hcu] <;> exact keysNodup_mapSet _ _ hk

theorem removePresence_get_ne (cu : List (Nat × List SocketId)) {h h' : Nat}
    (sid : SocketId) (hne : h' ≠ h) :
    mapGet (removePresence cu (some h) sid) h' = mapGet cu h' := by
  cases hcu : mapGet cu h with
  | none => simp [removePresence, hcu]
  | some s =>
    simp only [removePresence, hcu]
    by_cases hlen : (setDelete s sid).length = 0
    · rw [if_pos hlen]
      exact mapGet_mapDelete_ne _ hne
    · rw [if_neg hlen]
      exact mapGet_mapSet_ne _ _ hne

theorem removePresence_get_self (cu : List (Nat × List SocketId)) {h : Nat}
    {s : List SocketId} (sid : SocketId) (hcu : mapGet cu h = some s) :
    mapGet (removePresence cu (some h) sid) h
      = if (setDelete s sid).length = 0 then none else some (setDelete s sid) := by
  simp only [removePresence, hcu]
  by_cases hlen : (setDelete s sid).length = 0 <;>
    simp [hlen, mapGet_mapDelete_self, mapGet_mapSet_self]

theorem keysNodup_removePresence (cu : List (Nat × List SocketId))
    (hid : Option Nat) (sid : SocketId) (hk : keysNodup cu) :
    keysNodup (removePresence cu hid sid) := by
  cases hid with
  | none => exact hk
  | some h =>
    cases hcu : mapGet cu h with
    | none => simpa [removePresence, hcu] using hk
    | some s =>
      simp only [removePresence, hcu]
      by_cases hlen : (setDelete s sid).length = 0
      · rw [if_pos hlen]
        exact keysNodup_mapDelete _ hk
      · rw [if_neg hlen]
        exact keysNodup_mapSet _ _ hk

/-! ### Invariant preservation -/

theorem inv_onConnection {st : ServerState} (hinv : Inv st) (sid : SocketId)
    (c : Conn) (hfresh : mapGet st.liveSockets sid = none) :
    Inv (onConnection st sid c).1 := by
  obtain ⟨cuK, suK, lsK, cuS, lsS⟩ := hinv
  have hsidne : ∀ sid' (sock' : Sock),
      mapGet st.liveSockets sid' = some sock' → sid' ≠ sid := by
    intro sid' sock' hg heq
    rw [heq, hfresh] at hg
    cases hg
  have hlive' : ∀ x (sockx : Sock), mapGet st.liveSockets x = some sockx →
      mapGet (onConnection st sid c).1.liveSockets x = some sockx := by
    intro x sockx hx
    show mapGet (mapSet st.liveSockets sid _) x = some sockx
    rw [mapGet_mapSet_ne _ _ (hsidne x sockx hx)]
    exact hx
  refine ⟨?_, ?_, ?_, ?_, ?_⟩
  · exact keysNodup_registerPresence _ _ _ cuK
  · exact keysNodup_mapSet _ _ suK
  · exact keysNodup_mapSet _ _ lsK
  · -- tenant entries remain sound
    intro h' s' hget
    replace hget : mapGet (registerPresence st.connectedUsers c.hotelId sid) h'
        = some s' := hget
    cases hc : c.hotelId with
    | none =>
      rw [hc] at hget
      obtain ⟨hne, hnd, hmem⟩ := cuS h' s' hget
      refine ⟨hne, hnd, fun x hx => ?_⟩
      obtain ⟨sockx, hgx, hhx⟩ := hmem x hx
      exact ⟨sockx, hlive' x sockx hgx, hhx⟩
    | some h =>
      rw [hc] at hget
      by_cases hh : h' = h
      · subst hh
        rw [registerPresence_get_self] at hget
        obtain rfl : setAdd ((mapGet st.connectedUsers h').getD []) sid = s' :=
          Option.some.inj hget
        have hnd0 : ((mapGet st.connectedUsers h').getD []).Nodup := by
          cases hcu : mapGet st.connectedUsers h' with
          | none => simp
          | some s0 =>
            simp only [Option.getD_some]
            exact (cuS h' s0 hcu).2.1
        refine ⟨setAdd_ne_nil _ _, nodup_setAdd _ hnd0, fun x hx => ?_⟩
        rcases (mem_setAdd _ _ _).1 hx with hx0 | rfl
        · cases hcu : mapGet st.connectedUsers h' with
          | none => rw [hcu] at hx0; simp at hx0
          | some s0 =>
            rw [hcu] at hx0
            simp only [Option.getD_some] at hx0
            obtain ⟨sockx, hgx, hhx⟩ := (cuS h' s0 hcu).2.2 x hx0
            exact ⟨sockx, hlive' x sockx hgx, hhx⟩
        · refine ⟨{ conn := c, rooms := connRooms c }, ?_, hc⟩
          show mapGet (mapSet st.liveSockets x _) x = _
          rw [mapGet_mapSet_self]
      · rw [registerPresence_get_ne _ _ hh] at hget
        obtain ⟨hne, hnd, hmem⟩ := cuS h' s' hget
        refine ⟨hne, hnd, fun x hx => ?_⟩
        obtain ⟨sockx, hgx, hhx⟩ := hmem x hx
        exact ⟨sockx, hlive' x sockx hgx, hhx⟩
  · -- live sockets remain sound
    intro sid' sock' hget
    replace hget : mapGet (mapSet st.liveSockets sid { conn := c, rooms := connRooms c }) sid'
        = some sock' := hget
    by_cases hs : sid' = sid
    · subst hs
      rw [mapGet_mapSet_self] at hget
      obtain rfl : (⟨c, connRooms c⟩ : Sock) = sock' := Option.some.inj hget
      refine ⟨?_, ?_, ?_⟩
      · show mapGet (mapSet st.socketToUser sid' (userInfoOf c)) sid' = _
        rw [mapGet_mapSet_self]
      · intro h hh
        refine ⟨setAdd ((mapGet st.connectedUsers h).getD []) sid', ?_, ?_⟩
        · show mapGet (registerPresence st.connectedUsers c.hotelId sid') h = _
          rw [hh]
          exact registerPresence_get_self _ _ _
        · exact (mem_setAdd _ _ _).2 (Or.inr rfl)
      · intro r hr
        have hr' : r ∈ connRooms c := hr
        cases hc : c.hotelId with
        | none =>
          simp [connRooms, hc] at hr'
        | some h =>
          simp [connRooms, hc] at hr'
          left
          exact hr'
    · rw [mapGet_mapSet_ne _ _ hs] at hget
      obtain ⟨hsu, hcu, hrooms⟩ := lsS sid' sock' hget
      refine ⟨?_, ?_, hrooms⟩
      · show mapGet (mapSet st.socketToUser sid (userInfoOf c)) sid' = _
        rw [mapGet_mapSet_ne _ _ hs]
        exact hsu
      · intro h hh
        obtain ⟨s, hgs, hmem⟩ := hcu h hh
        cases hc : c.hotelId with
        | none =>
          refine ⟨s, ?_, hmem⟩
          show mapGet (registerPresence st.connectedUsers c.hotelId sid) h = some s
          rw [hc]
          exact hgs
        | some h0 =>
          by_cases hh0 : h = h0
          · subst hh0
            refine ⟨setAdd ((mapGet st.connectedUsers h).getD []) sid, ?_, ?_⟩
            · show mapGet (registerPresence st.connectedUsers c.hotelId sid) h = _
              rw [hc]
              exact registerPresence_get_self _ _ _
            · rw [hgs]
              simp only [Option.getD_some]
              exact (mem_setAdd _ _ _).2 (Or.inl hmem)
          · refine ⟨s, ?_, hmem⟩
            show mapGet (registerPresence st.connectedUsers c.hotelId sid) h = some s
            rw [hc, registerPresence_get_ne _ _ hh0]
            exact hgs

theorem inv_onJoinRoom {st : ServerState} (hinv : Inv st) (sid : SocketId)
    (roomName : String) : Inv (onJoinRoom st sid roomName).1 := by
  obtain ⟨cuK, suK, lsK, cuS, lsS⟩ := hinv
  cases hg : mapGet st.liveSockets sid with
  | none => simpa [onJoinRoom, hg] using ⟨cuK, suK, lsK, cuS, lsS⟩
  | some sock =>
    by_cases hal : roomName ∈ allowedRooms
    · have hred : (onJoinRoom st sid roomName).1 =
          { st with liveSockets := mapSet st.liveSockets sid (joinedSock sock roomName) } := by
        simp [onJoinRoom, hg, hal]
      rw [hred]
      refine ⟨cuK, suK, keysNodup_mapSet _ _ lsK, ?_, ?_⟩
      · intro h' s' hget
        obtain ⟨hne, hnd, hmem⟩ := cuS h' s' hget
        refine ⟨hne, hnd, fun x hx => ?_⟩
        obtain ⟨sockx, hgx, hhx⟩ := hmem x hx
        by_cases hxs : x = sid
        · subst hxs
          obtain rfl : sock = sockx := by
            rw [hg] at hgx
            exact Option.some.inj hgx
          refine ⟨joinedSock sock roomName, ?_, hhx⟩
          show mapGet (mapSet st.liveSockets x _) x = _
          rw [mapGet_mapSet_self]
        · refine ⟨sockx, ?_, hhx⟩
          show mapGet (mapSet st.liveSockets sid _) x = _
          rw [mapGet_mapSet_ne _ _ hxs]
          exact hgx
      · intro sid' sock' hget
        replace hget : mapGet (mapSet st.liveSockets sid (joinedSock sock roomName)) sid'
            = some sock' := hget
        by_cases hs : sid' = sid
        · subst hs
          rw [mapGet_mapSet_self] at hget
          obtain rfl := Option.some.inj hget
          obtain ⟨hsu, hcu, hrooms⟩ := lsS sid' sock hg
          refine ⟨hsu, hcu, ?_⟩
          intro r hr
          have hr' : r ∈ setAdd sock.rooms (subRoomStr sock.conn.hotelId roomName) := hr
          rcases (mem_setAdd _ _ _).1 hr' with hr0 | rfl
          · exact hrooms r hr0
          · exact Or.inr ⟨roomName, rfl⟩
        · rw [mapGet_mapSet_ne _ _ hs] at hget
          exact lsS sid' sock' hget
    · simpa [onJoinRoom, hg, hal] using ⟨cuK, suK, lsK, cuS, lsS⟩

theorem inv_onDisconnect {st : ServerState} (hinv : Inv st) (sid : SocketId)
    (sock : Sock) (hlive : mapGet st.liveSockets sid = some sock) :
    Inv (onDisconnect st sid sock.conn).1 := by
  obtain ⟨cuK, suK, lsK, cuS, lsS⟩ := hinv
  refine ⟨keysNodup_removePresence _ _ _ cuK, keysNodup_mapDelete _ suK,
    keysNodup_mapDelete _ lsK, ?_, ?_⟩
  · intro h' s' hget
    replace hget : mapGet (removePresence st.connectedUsers sock.conn.hotelId sid) h'
        = some s' := hget
    cases hc : sock.conn.hotelId with
    | none =>
      rw [hc] at hget
      obtain ⟨hne, hnd, hmem⟩ := cuS h' s' hget
      refine ⟨hne, hnd, fun x hx => ?_⟩
      obtain ⟨sockx, hgx, hhx⟩ := hmem x hx
      have hxs : x ≠ sid := by
        intro heq
        subst heq
        rw [hlive] at hgx
        obtain rfl := Option.some.inj hgx
        rw [hc] at hhx
        cases hhx
      refine ⟨sockx, ?_, hhx⟩
      show mapGet (mapDelete st.liveSockets sid) x = _
      rw [mapGet_mapDelete_ne _ hxs]
      exact hgx
    | some h =>
      rw [hc] at hget
      by_cases hh : h' = h
      · subst hh
        obtain ⟨s, hgs, hsidmem⟩ := (lsS sid sock hlive).2.1 h' hc
        rw [removePresence_get_self _ _ hgs] at hget
        by_cases hlen : (setDelete s sid).length = 0
        · rw [if_pos hlen] at hget
          cases hget
        · rw [if_neg hlen] at hget
          obtain rfl := Option.some.inj hget
          obtain ⟨hne0, hnd0, hmem0⟩ := cuS h' s hgs
          refine ⟨fun hnil => hlen (by rw [hnil]; rfl),
            nodup_setDelete _ hnd0, fun x hx => ?_⟩
          obtain ⟨hxs, hxne⟩ := (mem_setDelete _ _ _).1 hx
          obtain ⟨sockx, hgx, hhx⟩ := hmem0 x hxs
          refine ⟨sockx, ?_, hhx⟩
          show mapGet (mapDelete st.liveSockets sid) x = _
          rw [mapGet_mapDelete_ne _ hxne]
          exact hgx
      · rw [removePresence_get_ne _ _ hh] at hget
        obtain ⟨hne, hnd, hmem⟩ := cuS h' s' hget
        refine ⟨hne, hnd, fun x hx => ?_⟩
        obtain ⟨sockx, hgx, hhx⟩ := hmem x hx
        have hxs : x ≠ sid := by
          intro heq
          subst heq
          rw [hlive] at hgx
          obtain rfl := Option.some.inj hgx
          rw [hc] at hhx
          exact hh (Option.some.inj hhx).symm
        refine ⟨sockx, ?_, hhx⟩
        show mapGet (mapDelete st.liveSockets sid) x = _
        rw [mapGet_mapDelete_ne _ hxs]
        exact hgx
  · intro sid' sock' hget
    replace hget : mapGet (mapDelete st.liveSockets sid) sid' = some sock' := hget
    have hs : sid' ≠ sid := by
      intro heq
      subst heq
      rw [mapGet_mapDelete_self] at hget
      cases hget
    rw [mapGet_mapDelete_ne _ hs] at hget
    obtain ⟨hsu, hcu, hrooms⟩ := lsS sid' sock' hget
    refine ⟨?_, ?_, hrooms⟩
    · show mapGet (mapDelete st.socketToUser sid) sid' = _
      rw [mapGet_mapDelete_ne _ hs]
      exact hsu
    · intro h2 hh2
      obtain ⟨s2, hgs2, hmem2⟩ := hcu h2 hh2
      cases hc : sock.conn.hotelId with
      | none =>
        refine ⟨s2, ?_, hmem2⟩
        show mapGet (removePresence st.connectedUsers sock.conn.hotelId sid) h2 = some s2
        rw [hc]
        exact hgs2
      | some h =>
        by_cases hhh : h2 = h
        · subst hhh
          obtain ⟨s, hgs, hsidmem⟩ := (lsS sid sock hlive).2.1 h2 hc
          obtain rfl : s = s2 := by
            rw [hgs] at hgs2
            exact Option.some.inj hgs2
          have hmem' : sid' ∈ setDelete s sid := (mem_setDelete _ _ _).2 ⟨hmem2, hs⟩
          have hlen : ¬(setDelete s sid).length = 0 := by
            intro h0
            rw [List.length_eq_zero] at h0
            rw [h0] at hmem'
            simp at hmem'
          refine ⟨setDelete s sid, ?_, hmem'⟩
          show mapGet (removePresence st.connectedUsers sock.conn.hotelId sid) h2 = _
          rw [hc, removePresence_get_self _ _ hgs, if_neg hlen]
        · refine ⟨s2, ?_, hmem2⟩
          show mapGet (removePresence st.connectedUsers sock.conn.hotelId sid) h2 = some s2
          rw [hc, removePresence_get_ne _ _ hhh]
          exact hgs2

/-- Every reachable server state satisfies the registry invariant. -/
theorem inv_reachable {st : ServerState} (h : Reachable st) : Inv st := by
  induction h with
  | init => exact inv_init
  | step hr hstep ih =>
    cases hstep with
    | connect sid c hfresh => exact inv_onConnection ih sid c hfresh
    | joinRoom sid roomName => exact inv_onJoinRoom ih sid roomName
    | disconnect sid sock hlive => exact inv_onDisconnect ih sid sock hlive

/-! ### Derived presence characterizations -/

theorem presence_members {st : ServerState} (hinv : Inv st) {h : Nat}
    {s : List SocketId} (hs : mapGet st.connectedUsers h = some s) (sid : SocketId) :
    sid ∈ s ↔ ∃ sock, mapGet st.liveSockets sid = some sock ∧
      sock.conn.hotelId = some h := by
  constructor
  · intro hmem
    exact (hinv.cuSound h s hs).2.2 sid hmem
  · rintro ⟨sock, hg, hh⟩
    obtain ⟨s', hs', hmem'⟩ := (hinv.lsSound sid sock hg).2.1 h hh
    rw [hs] at hs'
    obtain rfl := Option.some.inj hs'
    exact hmem'

theorem liveFilter_fst_nodup {st : ServerState} (hinv : Inv st)
    (p : SocketId × Sock → Bool) :
    ((st.liveSockets.filter p).map Prod.fst).Nodup :=
  ((List.filter_sublist _).map Prod.fst).nodup hinv.lsKeys

theorem mem_liveFilter_iff {st : ServerState} (hinv : Inv st)
    (p : SocketId × Sock → Bool) (sid : SocketId) :
    sid ∈ (st.liveSockets.filter p).map Prod.fst ↔
      ∃ sock, mapGet st.liveSockets sid = some sock ∧ p (sid, sock) = true := by
  constructor
  · intro hmem
    obtain ⟨⟨a, sock⟩, hpair, hfst⟩ := List.mem_map.1 hmem
    obtain ⟨hls, hp⟩ := List.mem_filter.1 hpair
    cases hfst
    exact ⟨sock, mem_mapGet hinv.lsKeys hls, hp⟩
  · rintro ⟨sock, hg, hp⟩
    exact List.mem_map.2 ⟨(sid, sock),
      List.mem_filter.2 ⟨mapGet_mem hg, hp⟩, rfl⟩

/-- The tenant's presence set enumerates exactly the live sockets of that
  tenant (as a permutation: both sides are duplicate-free). -/
theorem presence_set_perm {st : ServerState} (hinv : Inv st) {h : Nat}
    {s : List SocketId} (hs : mapGet st.connectedUsers h = some s) :
    s.Perm ((st.liveSockets.filter
      (fun p => p.2.conn.hotelId == some h)).map Prod.fst) := by
  rw [List.perm_ext_iff_of_nodup (hinv.cuSound h s hs).2.1
    (liveFilter_fst_nodup hinv _)]
  intro sid
  rw [presence_members hinv hs sid, mem_liveFilter_iff hinv _ sid]
  constructor
  · rintro ⟨sock, hg, hh⟩
    exact ⟨sock, hg, by simp [hh]⟩
  · rintro ⟨sock, hg, hp⟩
    simp at hp
    exact ⟨sock, hg, hp⟩

/-- A tenant without a presence entry has no live socket either. -/
theorem liveFilter_nil_of_none {st : ServerState} (hinv : Inv st) {h : Nat}
    (hs : mapGet st.connectedUsers h = none) :
    st.liveSockets.filter (fun p => p.2.conn.hotelId == some h) = [] := by
  rw [List.filter_eq_nil]
  rintro ⟨sid, sock⟩ hmem hp
  simp at hp
  obtain ⟨s', hs', hmem'⟩ :=
    (hinv.lsSound sid sock (mem_mapGet hinv.lsKeys hmem)).2.1 h hp
  rw [hs] at hs'
  cases hs'

/-- Query `count` equals the number of live sockets of the tenant. -/
theorem count_eq_live {st : ServerState} (hinv : Inv st) (h : Nat) :
    getConnectedUsersCount st h =
      (st.liveSockets.filter (fun p => p.2.conn.hotelId == some h)).length := by
  unfold getConnectedUsersCount
  cases hs : mapGet st.connectedUsers h with
  | some s =>
    show s.length = _
    rw [(presence_set_perm hinv hs).length_eq, List.length_map]
  | none =>
    show 0 = _
    rw [liveFilter_nil_of_none hinv hs]
    rfl

theorem filterMap_eq_map_of_forall {α β : Type} (f : α → Option β) (g : α → β)
    (l : List α) (h : ∀ a ∈ l, f a = some (g a)) : l.filterMap f = l.map g := by
  induction l with
  | nil => rfl
  | cons a rest ih =>
    rw [List.filterMap_cons, h a (List.mem_cons_self a rest), List.map_cons,
      ih (fun x hx => h x (List.mem_cons_of_mem a hx))]

/-- Query `list` returns exactly the identities of the tenant's live
  sockets (as a permutation: the order of a JS `Set` walk is unspecified
  by the spec). -/
theorem list_eq_live {st : ServerState} (hinv : Inv st) (h : Nat) :
    (getConnectedUsers st h).Perm
      ((st.liveSockets.filter (fun p => p.2.conn.hotelId == some h)).map
        (fun p => userInfoOf p.2.conn)) := by
  unfold getConnectedUsers
  cases hs : mapGet st.connectedUsers h with
  | none =>
    rw [liveFilter_nil_of_none hinv hs]
    exact List.Perm.refl _
  | some s =>
    have hside : ∀ p ∈ st.liveSockets.filter (fun p => p.2.conn.hotelId == some h),
        ((fun x => mapGet st.socketToUser x) ∘ Prod.fst) p
          = some ((fun p => userInfoOf p.2.conn) p) := by
      intro p hpmem
      obtain ⟨sid, sock⟩ := p
      have hmem := List.mem_filter.1 hpmem
      exact (hinv.lsSound sid sock (mem_mapGet hinv.lsKeys hmem.1)).1
    have hp := (presence_set_perm hinv hs).filterMap
      (fun x => mapGet st.socketToUser x)
    rw [List.filterMap_map, filterMap_eq_map_of_forall _ _ _ hside] at hp
    exact hp

/-- Every identity reported by `getConnectedUsers h` carries tenant `h`. -/
theorem getConnectedUsers_tenant {st : ServerState} (hinv : Inv st) (h : Nat) :
    ∀ u ∈ getConnectedUsers st h, u.hotelId = some h := by
  intro u hu
  unfold getConnectedUsers at hu
  cases hs : mapGet st.connectedUsers h with
  | none => rw [hs] at hu; cases hu
  | some s =>
    rw [hs] at hu
    obtain ⟨sid, hsid, hsu⟩ := List.mem_filterMap.1 hu
    obtain ⟨sock, hg, hh⟩ := (presence_members hinv hs sid).1 hsid
    have := (hinv.lsSound sid sock hg).1
    rw [this] at hsu
    obtain rfl := Option.some.inj hsu
    show (userInfoOf sock.conn).hotelId = some h
    rw [show (userInfoOf sock.conn).hotelId = sock.conn.hotelId from rfl, hh]

/-! ### Dispatcher characterizations -/

/-- The per-socket test of `broadcastToRole`'s loop body. -/
def roleMatches (st : ServerState) (role : String) (sid : SocketId) : Bool :=
  match mapGet st.liveSockets sid with
  | some sock => sock.conn.userRole == role
  | none => false

theorem filterMapRole_eq (st : ServerState) (role event : String)
    (data : Payload) (now : String) (s : List SocketId) :
    (s.filterMap (fun sid =>
        match mapGet st.liveSockets sid with
        | some sock =>
          if sock.conn.userRole = role then some (sid, event, stamp data now)
          else none
        | none => none))
      = (s.filter (roleMatches st role)).map (fun sid => (sid, event, stamp data now)) := by
  induction s with
  | nil => rfl
  | cons a rest ih =>
    simp only [List.filterMap_cons, List.filter_cons]
    cases hg : mapGet st.liveSockets a with
    | none => simpa [roleMatches, hg] using ih
    | some sock =>
      by_cases hr : sock.conn.userRole = role
      · simpa [roleMatches, hg, hr] using ih
      · simpa [roleMatches, hg, hr] using ih

theorem broadcastToRole_eq {st : ServerState} {h : Nat} {s : List SocketId}
    (hcu : mapGet st.connectedUsers h = some s) (role event : String)
    (data : Payload) (now : String) :
    broadcastToRole st h role event data now =
      (s.filter (roleMatches st role)).map (fun sid => (sid, event, stamp data now)) := by
  simp only [broadcastToRole, hcu]
  exact filterMapRole_eq st role event data now s

theorem broadcastToHotel_fst (st : ServerState) (hid : Nat) (event : String)
    (data : Payload) (now : String) :
    (broadcastToHotel st hid event data now).map Prod.fst
      = (st.liveSockets.filter
          (fun p => decide (hotelRoomStr (some hid) ∈ p.2.rooms))).map Prod.fst := by
  unfold broadcastToHotel
  rw [List.map_map]
  rfl

theorem broadcastToRoom_fst (st : ServerState) (hid : Nat) (roomName event : String)
    (data : Payload) (now : String) :
    (broadcastToRoom st hid roomName event data now).map Prod.fst
      = (st.liveSockets.filter
          (fun p => decide (subRoomStr (some hid) roomName ∈ p.2.rooms))).map Prod.fst := by
  unfold broadcastToRoom
  rw [List.map_map]
  rfl

theorem broadcastToRole_fst {st : ServerState} {h : Nat} {s : List SocketId}
    (hcu : mapGet st.connectedUsers h = some s) (role event : String)
    (data : Payload) (now : String) :
    (broadcastToRole st h role event data now).map Prod.fst
      = s.filter (roleMatches st role) := by
  rw [broadcastToRole_eq hcu, List.map_map]
  exact List.map_id _

theorem stamp_get (data : Payload) (now : String) :
    mapGet (stamp data now) "timestamp" = some (.vStr now) :=
  mapGet_mapSet_self data "timestamp" (.vStr now)

/-! ### Claim theorems -/

/-- C1: cross-tenant isolation of the dispatchers. In every reachable state,
  a live connection whose tenant is `T` is never a recipient of
  `broadcastToHotel`, `broadcastToRole`, or `broadcastToRoom` invoked for a
  tenant `U ≠ T`; and sub-channel group identity embeds the tenant id, so
  the same sub-channel name under two tenants names two distinct rooms. -/
theorem crossTenantIsolation (st : ServerState) (sid : SocketId) (sock : Sock)
    (T U : Nat) (role event roomName : String) (data : Payload) (now : String)
    (hr : Reachable st) (hlive : mapGet st.liveSockets sid = some sock)
    (hT : sock.conn.hotelId = some T) (hne : U ≠ T) :
    sid ∉ (broadcastToHotel st U event data now).map Prod.fst ∧
    sid ∉ (broadcastToRole st U role event data now).map Prod.fst ∧
    sid ∉ (broadcastToRoom st U roomName event data now).map Prod.fst ∧
    subRoomStr (some T) roomName ≠ subRoomStr (some U) roomName := by
  have hinv := inv_reachable hr
  have hrooms := (hinv.lsSound sid sock hlive).2.2
  have hroomNe : ∀ r ∈ sock.rooms,
      r ≠ hotelRoomStr (some U) ∧ r ≠ subRoomStr (some U) roomName := by
    intro r hrm
    rcases hrooms r hrm with hcase | ⟨n, hcase⟩
    · rw [hcase, hT]
      exact ⟨fun hh => hotelRoomStr_inj (Ne.symm hne) hh,
        hotelRoomStr_ne_subRoomStr T U roomName⟩
    · rw [hcase, hT]
      exact ⟨fun hh => hotelRoomStr_ne_subRoomStr U T n hh.symm,
        subRoomStr_tenant_inj (Ne.symm hne) n roomName⟩
  refine ⟨?_, ?_, ?_, subRoomStr_tenant_inj (Ne.symm hne) roomName roomName⟩
  · rw [broadcastToHotel_fst]
    intro hmem
    obtain ⟨sock', hg', hp⟩ := (mem_liveFilter_iff hinv _ sid).1 hmem
    rw [hlive] at hg'
    obtain rfl := Option.some.inj hg'
    rw [decide_eq_true_iff] at hp
    exact (hroomNe _ hp).1 rfl
  · intro hmem
    cases hcu : mapGet st.connectedUsers U with
    | none =>
      rw [show broadcastToRole st U role event data now = [] by
        simp [broadcastToRole, hcu]] at hmem
      cases hmem
    | some s =>
      rw [broadcastToRole_fst hcu] at hmem
      have hsid : sid ∈ s := (List.mem_filter.1 hmem).1
      obtain ⟨sock', hg', hh'⟩ := (presence_members hinv hcu sid).1 hsid
      rw [hlive] at hg'
      obtain rfl := Option.some.inj hg'
      rw [hT] at hh'
      exact hne (Option.some.inj hh').symm
  · rw [broadcastToRoom_fst]
    intro hmem
    obtain ⟨sock', hg', hp⟩ := (mem_liveFilter_iff hinv _ sid).1 hmem
    rw [hlive] at hg'
    obtain rfl := Option.some.inj hg'
    rw [decide_eq_true_iff] at hp
    exact (hroomNe _ hp).2 rfl

/-- C2: `broadcastToRole T R …` delivers exactly once to each live
  connection of tenant `T` with role `R`, to no other connection, and is a
  no-op (the empty delivery list) when tenant `T` has no presence entry. -/
theorem broadcastToRole_exact (st : ServerState) (T : Nat) (R event : String)
    (data : Payload) (now : String) (hr : Reachable st) :
    (∀ sid, sid ∈ (broadcastToRole st T R event data now).map Prod.fst ↔
      ∃ sock, mapGet st.liveSockets sid = some sock ∧
        sock.conn.hotelId = some T ∧ sock.conn.userRole = R) ∧
    ((broadcastToRole st T R event data now).map Prod.fst).Nodup ∧
    (mapGet st.connectedUsers T = none →
      broadcastToRole st T R event data now = []) := by
  have hinv := inv_reachable hr
  cases hcu : mapGet st.connectedUsers T with
  | none =>
    have hnil : broadcastToRole st T R event data now = [] := by
      simp [broadcastToRole, hcu]
    refine ⟨?_, by simp [hnil], fun _ => hnil⟩
    intro sid
    rw [hnil]
    simp only [List.map_nil, List.not_mem_nil, false_iff]
    rintro ⟨sock, hg, hh, -⟩
    obtain ⟨s', hs', -⟩ := (hinv.lsSound sid sock hg).2.1 T hh
    rw [hcu] at hs'
    cases hs'
  | some s =>
    rw [broadcastToRole_fst hcu]
    refine ⟨?_, ((hinv.cuSound T s hcu).2.1).filter _, fun hno => by
      simp [hcu] at hno⟩
    intro sid
    rw [List.mem_filter]
    constructor
    · rintro ⟨hsid, hrm⟩
      obtain ⟨sock, hg, hh⟩ := (presence_members hinv hcu sid).1 hsid
      refine ⟨sock, hg, hh, ?_⟩
      unfold roleMatches at hrm
      rw [hg] at hrm
      exact beq_iff_eq.1 hrm
    · rintro ⟨sock, hg, hh, hrole⟩
      refine ⟨(presence_members hinv hcu sid).2 ⟨sock, hg, hh⟩, ?_⟩
      unfold roleMatches
      rw [hg]
      exact beq_iff_eq.2 hrole

/-- C4: every payload delivered by any of the three dispatchers carries a
  `timestamp` field bound to the server clock reading taken at dispatch
  time, overriding any caller-supplied field of the same name (the
  statement quantifies over arbitrary caller payloads `data`, including
  those that already contain a `timestamp` binding). -/
theorem dispatcherTimestamps (st : ServerState) (hid : Nat)
    (role roomName event : String) (data : Payload) (now : String) (x : Delivery) :
    (x ∈ broadcastToHotel st hid event data now →
      mapGet x.2.2 "timestamp" = some (.vStr now)) ∧
    (x ∈ broadcastToRole st hid role event data now →
      mapGet x.2.2 "timestamp" = some (.vStr now)) ∧
    (x ∈ broadcastToRoom st hid roomName event data now →
      mapGet x.2.2 "timestamp" = some (.vStr now)) := by
  refine ⟨?_, ?_, ?_⟩
  · intro hmem
    obtain ⟨p, -, hx⟩ := List.mem_map.1 hmem
    rw [← hx]
    exact stamp_get data now
  · intro hmem
    cases hcu : mapGet st.connectedUsers hid with
    | none =>
      rw [show broadcastToRole st hid role event data now = [] by
        simp [broadcastToRole, hcu]] at hmem
      cases hmem
    | some s =>
      rw [broadcastToRole_eq hcu] at hmem
      obtain ⟨sid, -, hx⟩ := List.mem_map.1 hmem
      rw [← hx]
      exact stamp_get data now
  · intro hmem
    obtain ⟨p, -, hx⟩ := List.mem_map.1 hmem
    rw [← hx]
    exact stamp_get data now

theorem serverState_ext (a b : ServerState)
    (h1 : a.connectedUsers = b.connectedUsers)
    (h2 : a.socketToUser = b.socketToUser)
    (h3 : a.liveSockets = b.liveSockets) : a = b := by
  cases a
  cases b
  cases h1
  cases h2
  cases h3
  rfl

theorem setDelete_idem {α : Type} [DecidableEq α] (s : List α) (x : α) :
    setDelete (setDelete s x) x = setDelete s x :=
  setDelete_eq_self (fun hm => ((mem_setDelete _ _ _).1 hm).2 rfl)

theorem removePresence_idem (cu : List (Nat × List SocketId)) (hid : Option Nat)
    (sid : SocketId) :
    removePresence (removePresence cu hid sid) hid sid
      = removePresence cu hid sid := by
  cases hid with
  | none => rfl
  | some h =>
    cases hcu : mapGet cu h with
    | none =>
      have hid1 : removePresence cu (some h) sid = cu := by
        simp [removePresence, hcu]
      rw [hid1, hid1]
    | some s =>
      simp only [removePresence, hcu]
      by_cases hlen : (setDelete s sid).length = 0
      · rw [if_pos hlen]
        simp [removePresence, mapGet_mapDelete_self]
      · rw [if_neg hlen]
        have hget : mapGet (mapSet cu h (setDelete s sid)) h = some (setDelete s sid) :=
          mapGet_mapSet_self _ _ _
        simp only [removePresence, hget, setDelete_idem, hlen, if_neg]
        exact mapSet_eq_self hget

/-- C5: deregistration is idempotent. Feeding the `disconnect` handler a
  second signal for the same socket leaves the server state — hence every
  tenant's `count` and `list` — exactly as after the first signal; the
  handler is a total function, so no error is raised. The statement holds
  for every starting state, socket id and socket fields, so in particular
  for a socket that is not (or no longer) registered. -/
theorem disconnect_idempotent (st : ServerState) (sid : SocketId) (c : Conn) :
    (onDisconnect (onDisconnect st sid c).1 sid c).1 = (onDisconnect st sid c).1 ∧
    (∀ T, getConnectedUsersCount (onDisconnect (onDisconnect st sid c).1 sid c).1 T
        = getConnectedUsersCount (onDisconnect st sid c).1 T ∧
      getConnectedUsers (onDisconnect (onDisconnect st sid c).1 sid c).1 T
        = getConnectedUsers (onDisconnect st sid c).1 T) := by
  have hstate : (onDisconnect (onDisconnect st sid c).1 sid c).1
      = (onDisconnect st sid c).1 :=
    serverState_ext (onDisconnect (onDisconnect st sid c).1 sid c).1
      (onDisconnect st sid c).1 (removePresence_idem _ _ _)
      (mapDelete_idem _ _) (mapDelete_idem _ _)
  exact ⟨hstate, fun T => by rw [hstate]; exact ⟨rfl, rfl⟩⟩

/-- C6: the authenticator refuses exactly under the four failure classes —
  absent token; malformed/expired/wrongly-signed token (all of which make
  `jwt.verify` throw); missing-or-inactive user; tenant subscription in a
  state other than `active`/`trial` (checked only when the user has a
  hotel) — each class with its own distinct error constructor, and a
  successful result always carries the full identity of an active user
  whose tenant (if any) is in an allowed state. -/
theorem authRefusalClasses (tok : TokenInput) (db : Db) :
    ((∃ e, authenticate tok db = .error e) ↔
      (tok = .noToken ∨ tok = .badToken ∨
        ∃ uid, tok = .valid uid ∧
          (db.users.find? (fun u => u.id == uid) = none ∨
           ∃ u, db.users.find? (fun u => u.id == uid) = some u ∧
             (u.isActive = false ∨
              ∃ hotel, lookupHotel db u.hotelId = some hotel ∧
                hotel.subscriptionStatus ≠ "active" ∧
                hotel.subscriptionStatus ≠ "trial")))) ∧
    (tok = .noToken → authenticate tok db = .error .authenticationRequired) ∧
    (tok = .badToken → authenticate tok db = .error .authenticationFailed) ∧
    (∀ uid, tok = .valid uid →
      (db.users.find? (fun u => u.id == uid) = none ∨
        ∃ u, db.users.find? (fun u => u.id == uid) = some u ∧ u.isActive = false) →
      authenticate tok db = .error .invalidUser) ∧
    (∀ uid u hotel, tok = .valid uid →
      db.users.find? (fun w => w.id == uid) = some u → u.isActive = true →
      lookupHotel db u.hotelId = some hotel →
      hotel.subscriptionStatus ≠ "active" → hotel.subscriptionStatus ≠ "trial" →
      authenticate tok db = .error .hotelSubscriptionInactive) ∧
    (∀ c, authenticate tok db = .ok c →
      ∃ uid u, tok = .valid uid ∧
        db.users.find? (fun w => w.id == uid) = some u ∧
        u.isActive = true ∧ c = connOf u ∧
        (∀ hotel, lookupHotel db u.hotelId = some hotel →
          hotel.subscriptionStatus = "active" ∨ hotel.subscriptionStatus = "trial")) := by
  cases tok with
  | noToken =>
    refine ⟨?_, fun _ => rfl, ?_, ?_, ?_, ?_⟩
    · constructor
      · intro _
        exact Or.inl rfl
      · intro _
        exact ⟨.authenticationRequired, rfl⟩
    · intro hbad
      cases hbad
    · intro uid hval
      cases hval
    · intro uid u hotel hval
      cases hval
    · intro c hok
      cases hok
  | badToken =>
    refine ⟨?_, ?_, fun _ => rfl, ?_, ?_, ?_⟩
    · constructor
      · intro _
        exact Or.inr (Or.inl rfl)
      · intro _
        exact ⟨.authenticationFailed, rfl⟩
    · intro hno
      cases hno
    · intro uid hval
      cases hval
    · intro uid u hotel hval
      cases hval
    · intro c hok
      cases hok
  | valid uid =>
    have htokne1 : TokenInput.valid uid ≠ .noToken := by intro hh; cases hh
    have htokne2 : TokenInput.valid uid ≠ .badToken := by intro hh; cases hh
    cases hfind : db.users.find? (fun u => u.id == uid) with
    | none =>
      have hcomp : authenticate (.valid uid) db = .error .invalidUser := by
        simp [authenticate, hfind]
      refine ⟨?_, fun hh => absurd hh htokne1, fun hh => absurd hh htokne2,
        fun _ _ _ => hcomp, ?_, ?_⟩
      · constructor
        · intro _
          exact Or.inr (Or.inr ⟨uid, rfl, Or.inl hfind⟩)
        · intro _
          exact ⟨.invalidUser, hcomp⟩
      · intro uid' u hotel hval hfind' _ _ _ _
        obtain rfl : uid' = uid := by cases hval; rfl
        rw [hfind] at hfind'
        cases hfind'
      · intro c hok
        rw [hcomp] at hok
        cases hok
    | some u =>
      cases hact : u.isActive with
      | false =>
        have hcomp : authenticate (.valid uid) db = .error .invalidUser := by
          simp [authenticate, hfind, hact]
        refine ⟨?_, fun hh => absurd hh htokne1, fun hh => absurd hh htokne2,
          fun _ _ _ => hcomp, ?_, ?_⟩
        · constructor
          · intro _
            exact Or.inr (Or.inr ⟨uid, rfl, Or.inr ⟨u, hfind, Or.inl hact⟩⟩)
          · intro _
            exact ⟨.invalidUser, hcomp⟩
        · intro uid' u' hotel hval hfind' hact' _ _ _
          obtain rfl : uid' = uid := by cases hval; rfl
          rw [hfind] at hfind'
          obtain rfl := Option.some.inj hfind'
          rw [hact] at hact'
          cases hact'
        · intro c hok
          rw [hcomp] at hok
          cases hok
      | true =>
        cases hhot : lookupHotel db u.hotelId with
        | none =>
          have hcomp : authenticate (.valid uid) db = .ok (connOf u) := by
            simp [authenticate, hfind, hact, hhot]
          refine ⟨?_, fun hh => absurd hh htokne1, fun hh => absurd hh htokne2,
            ?_, ?_, ?_⟩
          · constructor
            · rintro ⟨e, he⟩
              rw [hcomp] at he
              cases he
            · rintro (hh | hh | ⟨uid', hval, hrest⟩)
              · exact absurd hh htokne1
              · exact absurd hh htokne2
              · obtain rfl : uid' = uid := by cases hval; rfl
                rcases hrest with hnone | ⟨u', hfind', hbad⟩
                · rw [hfind] at hnone
                  cases hnone
                · rw [hfind] at hfind'
                  obtain rfl := Option.some.inj hfind'
                  rcases hbad with hia | ⟨hotel, hhot', -⟩
                  · rw [hact] at hia
                    cases hia
                  · rw [hhot] at hhot'
                    cases hhot'
          · intro uid' hval hbad
            obtain rfl : uid' = uid := by cases hval; rfl
            rcases hbad with hnone | ⟨u', hfind', hia⟩
            · rw [hfind] at hnone
              cases hnone
            · rw [hfind] at hfind'
              obtain rfl := Option.some.inj hfind'
              rw [hact] at hia
              cases hia
          · intro uid' u' hotel hval hfind' _ hhot' _ _
            obtain rfl : uid' = uid := by cases hval; rfl
            rw [hfind] at hfind'
            obtain rfl := Option.some.inj hfind'
            rw [hhot] at hhot'
            cases hhot'
          · intro c hok
            rw [hcomp] at hok
            have hc : connOf u = c := by injection hok
            subst hc
            exact ⟨uid, u, rfl, hfind, hact, rfl, fun hotel hhot' => by
              rw [hhot] at hhot'
              cases hhot'⟩
        | some hotel =>
          by_cases hsub : hotel.subscriptionStatus ≠ "active" ∧ hotel.subscriptionStatus ≠ "trial"
          · have hcomp : authenticate (.valid uid) db = .error .hotelSubscriptionInactive := by
              simp only [authenticate, hfind, hact, hhot, Bool.not_true, Bool.false_eq_true,
                if_false]
              rw [if_pos hsub]
            refine ⟨?_, fun hh => absurd hh htokne1, fun hh => absurd hh htokne2,
              ?_, fun _ _ _ _ _ _ _ _ _ => hcomp, ?_⟩
            · constructor
              · intro _
                exact Or.inr (Or.inr ⟨uid, rfl,
                  Or.inr ⟨u, hfind, Or.inr ⟨hotel, hhot, hsub.1, hsub.2⟩⟩⟩)
              · intro _
                exact ⟨.hotelSubscriptionInactive, hcomp⟩
            · intro uid' hval hbad
              obtain rfl : uid' = uid := by cases hval; rfl
              rcases hbad with hnone | ⟨u', hfind', hia⟩
              · rw [hfind] at hnone
                cases hnone
              · rw [hfind] at hfind'
                obtain rfl := Option.some.inj hfind'
                rw [hact] at hia
                cases hia
            · intro c hok
              rw [hcomp] at hok
              cases hok
          · have hst : hotel.subscriptionStatus = "active" ∨ hotel.subscriptionStatus = "trial" := by
              by_cases h1 : hotel.subscriptionStatus = "active"
              · exact Or.inl h1
              · by_cases h2 : hotel.subscriptionStatus = "trial"
                · exact Or.inr h2
                · exact absurd ⟨h1, h2⟩ hsub
            have hcomp : authenticate (.valid uid) db = .ok (connOf u) := by
              simp only [authenticate, hfind, hact, hhot, Bool.not_true, Bool.false_eq_true,
                if_false]
              rw [if_neg hsub]
            refine ⟨?_, fun hh => absurd hh htokne1, fun hh => absurd hh htokne2,
              ?_, ?_, ?_⟩
            · constructor
              · rintro ⟨e, he⟩
                rw [hcomp] at he
                cases he
              · rintro (hh | hh | ⟨uid', hval, hrest⟩)
                · exact absurd hh htokne1
                · exact absurd hh htokne2
                · obtain rfl : uid' = uid := by cases hval; rfl
                  rcases hrest with hnone | ⟨u', hfind', hbad⟩
                  · rw [hfind] at hnone
                    cases hnone
                  · rw [hfind] at hfind'
                    obtain rfl := Option.some.inj hfind'
                    rcases hbad with hia | ⟨hotel', hhot', hb1, hb2⟩
                    · rw [hact] at hia
                      cases hia
                    · rw [hhot] at hhot'
                      obtain rfl := Option.some.inj hhot'
                      exact absurd ⟨hb1, hb2⟩ hsub
            · intro uid' hval hbad
              obtain rfl : uid' = uid := by cases hval; rfl
              rcases hbad with hnone | ⟨u', hfind', hia⟩
              · rw [hfind] at hnone
                cases hnone
              · rw [hfind] at hfind'
                obtain rfl := Option.some.inj hfind'
                rw [hact] at hia
                cases hia
            · intro uid' u' hotel' hval hfind' _ hhot' hb1 hb2
              obtain rfl : uid' = uid := by cases hval; rfl
              rw [hfind] at hfind'
              obtain rfl := Option.some.inj hfind'
              rw [hhot] at hhot'
              obtain rfl := Option.some.inj hhot'
              exact absurd ⟨hb1, hb2⟩ hsub
            · intro c hok
              rw [hcomp] at hok
              have hc : connOf u = c := by injection hok
              subst hc
              refine ⟨uid, u, rfl, hfind, hact, rfl, fun hotel' hhot' => by
                rw [hhot] at hhot'
                obtain rfl := Option.some.inj hhot'
                exact hst⟩

/-- C7: a failed authentication refuses the connection before any
  registration, so the whole server state — presence sets, identity index,
  live-socket table, and hence `count` and `list` for every tenant — is
  unchanged by the attempt. -/
theorem authFailureFrame (st : ServerState) (sid : SocketId) (tok : TokenInput)
    (db : Db) (e : AuthError) (h : authenticate tok db = .error e) :
    handleConnectionAttempt st sid tok db = (st, .refused e) ∧
    (∀ T, getConnectedUsersCount (handleConnectionAttempt st sid tok db).1 T
        = getConnectedUsersCount st T ∧
      getConnectedUsers (handleConnectionAttempt st sid tok db).1 T
        = getConnectedUsers st T) ∧
    (handleConnectionAttempt st sid tok db).1.connectedUsers = st.connectedUsers ∧
    (handleConnectionAttempt st sid tok db).1.socketToUser = st.socketToUser ∧
    (handleConnectionAttempt st sid tok db).1.liveSockets = st.liveSockets := by
  have hred : handleConnectionAttempt st sid tok db = (st, .refused e) := by
    unfold handleConnectionAttempt
    rw [h]
  rw [hred]
  exact ⟨rfl, fun T => ⟨rfl, rfl⟩, rfl, rfl, rfl⟩

/-- C8: the `join_room` handler silently ignores a name outside the
  allow-list — the state is untouched and no event (in particular no
  `room_joined` acknowledgment) is emitted — while a name in the allow-list
  is granted unconditionally: the socket joins the tenant-scoped room
  `hotel_${hotelId}_${roomName}` and receives a `room_joined` ack. -/
theorem joinRoomAllowList (st : ServerState) (sid : SocketId) (sock : Sock)
    (roomName : String) (hlive : mapGet st.liveSockets sid = some sock) :
    (roomName ∉ allowedRooms →
      (onJoinRoom st sid roomName).1 = st ∧ (onJoinRoom st sid roomName).2 = []) ∧
    (roomName ∈ allowedRooms →
      (∃ sock', mapGet (onJoinRoom st sid roomName).1.liveSockets sid = some sock' ∧
        sock'.conn = sock.conn ∧
        sock'.rooms = setAdd sock.rooms (subRoomStr sock.conn.hotelId roomName) ∧
        subRoomStr sock.conn.hotelId roomName ∈ sock'.rooms) ∧
      (onJoinRoom st sid roomName).2 = [.roomJoined sid roomName]) := by
  constructor
  · intro hnot
    have hred0 : onJoinRoom st sid roomName = (st, []) := by
      simp [onJoinRoom, hlive, hnot]
    rw [hred0]
    exact ⟨rfl, rfl⟩
  · intro hal
    have hred : onJoinRoom st sid roomName =
        ({ st with liveSockets := mapSet st.liveSockets sid (joinedSock sock roomName) },
         [.roomJoined sid roomName]) := by
      simp [onJoinRoom, hlive, hal]
    rw [hred]
    refine ⟨⟨joinedSock sock roomName, ?_, rfl, rfl, ?_⟩, rfl⟩
    · exact mapGet_mapSet_self _ _ _
    · exact (mem_setAdd _ _ _).2 (Or.inr rfl)

/-- C9: no tenant entry is ever empty in a reachable state; `count` is `0`
  for a tenant without an entry; and disconnecting a tenant's last live
  connection removes the tenant's entry entirely rather than leaving an
  empty set behind. -/
theorem presenceNoEmptyEntries (st : ServerState) (hr : Reachable st) :
    (∀ h s, mapGet st.connectedUsers h = some s → s ≠ []) ∧
    (∀ h, mapGet st.connectedUsers h = none → getConnectedUsersCount st h = 0) ∧
    (∀ sid sock h, mapGet st.liveSockets sid = some sock →
      sock.conn.hotelId = some h → getConnectedUsersCount st h = 1 →
      mapGet (onDisconnect st sid sock.conn).1.connectedUsers h = none) := by
  have hinv := inv_reachable hr
  refine ⟨fun h s hs => (hinv.cuSound h s hs).1, ?_, ?_⟩
  · intro h hnone
    unfold getConnectedUsersCount
    rw [hnone]
  · intro sid sock h hlive hh hcount
    obtain ⟨s, hgs, hsmem⟩ := (hinv.lsSound sid sock hlive).2.1 h hh
    have hlen : s.length = 1 := by
      unfold getConnectedUsersCount at hcount
      rw [hgs] at hcount
      exact hcount
    obtain ⟨a, rfl⟩ := List.length_eq_one.1 hlen
    have ha : sid = a := List.mem_singleton.1 hsmem
    subst ha
    show mapGet (removePresence st.connectedUsers sock.conn.hotelId sid) h = none
    rw [hh, removePresence_get_self _ _ hgs]
    have hdel : setDelete [sid] sid = ([] : List SocketId) := by
      simp [setDelete]
    rw [hdel]
    simp [mapGet_mapDelete_self]

/-- C3 (amended): in every reachable state, `count(T)` equals the number of
  live connections of tenant `T`, and `list(T)` returns exactly those live
  connections' identities (one entry per live connection, as a permutation
  — the walk order of a JS `Set` is unspecified); immediately after a live
  connection of tenant `h` disconnects, `count(h)` has decreased by exactly
  one and `list(h)` has lost exactly one occurrence of that connection's
  identity (the identity value itself can persist when another live
  connection of the same user remains). -/
theorem countInvariantAndDisconnect (st : ServerState) (sid : SocketId)
    (sock : Sock) (h : Nat) (hr : Reachable st)
    (hlive : mapGet st.liveSockets sid = some sock)
    (hh : sock.conn.hotelId = some h) :
    (∀ T, getConnectedUsersCount st T =
      (st.liveSockets.filter (fun p => p.2.conn.hotelId == some T)).length) ∧
    (∀ T, (getConnectedUsers st T).Perm
      ((st.liveSockets.filter (fun p => p.2.conn.hotelId == some T)).map
        (fun p => userInfoOf p.2.conn))) ∧
    getConnectedUsersCount (onDisconnect st sid sock.conn).1 h + 1
      = getConnectedUsersCount st h ∧
    (getConnectedUsers st h).Perm
      (userInfoOf sock.conn :: getConnectedUsers (onDisconnect st sid sock.conn).1 h) := by
  have hinv := inv_reachable hr
  obtain ⟨s, hgs, hsmem⟩ := (hinv.lsSound sid sock hlive).2.1 h hh
  have hnd := (hinv.cuSound h s hgs).2.1
  have hsu : mapGet st.socketToUser sid = some (userInfoOf sock.conn) :=
    (hinv.lsSound sid sock hlive).1
  have hlen := length_setDelete hnd hsmem
  have hcountafter : getConnectedUsersCount (onDisconnect st sid sock.conn).1 h
      = (setDelete s sid).length := by
    show (match mapGet (removePresence st.connectedUsers sock.conn.hotelId sid) h with
      | some s2 => s2.length
      | none => 0) = _
    rw [hh, removePresence_get_self _ _ hgs]
    by_cases hz : (setDelete s sid).length = 0
    · rw [if_pos hz, hz]
    · rw [if_neg hz]
  have hcountbefore : getConnectedUsersCount st h = s.length := by
    unfold getConnectedUsersCount
    rw [hgs]
  refine ⟨count_eq_live hinv, fun T => list_eq_live hinv T, ?_, ?_⟩
  · rw [hcountafter, hcountbefore]
    exact hlen
  · have hafter : getConnectedUsers (onDisconnect st sid sock.conn).1 h
        = (setDelete s sid).filterMap
            (fun x => mapGet (mapDelete st.socketToUser sid) x) := by
      show (match mapGet (removePresence st.connectedUsers sock.conn.hotelId sid) h with
        | some s2 => s2.filterMap (fun x => mapGet (mapDelete st.socketToUser sid) x)
        | none => []) = _
      rw [hh, removePresence_get_self _ _ hgs]
      by_cases hz : (setDelete s sid).length = 0
      · rw [if_pos hz]
        rw [List.length_eq_zero] at hz
        rw [hz]
        rfl
      · rw [if_neg hz]
    have hbefore : getConnectedUsers st h
        = s.filterMap (fun x => mapGet st.socketToUser x) := by
      unfold getConnectedUsers
      rw [hgs]
    have hperm1 : (s.filterMap (fun x => mapGet st.socketToUser x)).Perm
        (userInfoOf sock.conn ::
          (setDelete s sid).filterMap (fun x => mapGet st.socketToUser x)) := by
      have hp := (perm_setDelete hnd hsmem).filterMap
        (fun x => mapGet st.socketToUser x)
      rw [List.filterMap_cons, hsu] at hp
      exact hp
    have hcongr : (setDelete s sid).filterMap (fun x => mapGet st.socketToUser x)
        = (setDelete s sid).filterMap
            (fun x => mapGet (mapDelete st.socketToUser sid) x) := by
      apply List.filterMap_congr
      intro x hx
      have hxne := ((mem_setDelete _ _ _).1 hx).2
      rw [mapGet_mapDelete_ne _ hxne]
    rw [hbefore, hafter, ← hcongr]
    exact hperm1

/-- C10: a live connection whose hotel field is null was admitted with the
  subscription check skipped, sits in the identity index but in no tenant's
  presence set, is invisible to `count`/`list` and to `broadcastToRole` for
  every tenant, and leaves the identity index exactly at disconnect. -/
theorem nullTenantConnection (st : ServerState) (sid : SocketId) (sock : Sock)
    (hr : Reachable st) (hlive : mapGet st.liveSockets sid = some sock)
    (hnull : sock.conn.hotelId = none) :
    (∀ db uid u, db.users.find? (fun w => w.id == uid) = some u →
      u.isActive = true → u.hotelId = none →
      authenticate (.valid uid) db = .ok (connOf u)) ∧
    (∀ st0 c, c.hotelId = none →
      (onConnection st0 sid c).1.connectedUsers = st0.connectedUsers ∧
      mapGet (onConnection st0 sid c).1.socketToUser sid = some (userInfoOf c)) ∧
    (∀ T s, mapGet st.connectedUsers T = some s → sid ∉ s) ∧
    (∀ T, userInfoOf sock.conn ∉ getConnectedUsers st T) ∧
    (∀ T role event data now,
      sid ∉ (broadcastToRole st T role event data now).map Prod.fst) ∧
    mapGet st.socketToUser sid = some (userInfoOf sock.conn) ∧
    mapGet (onDisconnect st sid sock.conn).1.socketToUser sid = none := by
  have hinv := inv_reachable hr
  have hnotin : ∀ T s, mapGet st.connectedUsers T = some s → sid ∉ s := by
    intro T s hs hmem
    obtain ⟨sock', hg', hh'⟩ := (hinv.cuSound T s hs).2.2 sid hmem
    rw [hlive] at hg'
    obtain rfl := Option.some.inj hg'
    rw [hnull] at hh'
    cases hh'
  refine ⟨?_, ?_, hnotin, ?_, ?_, (hinv.lsSound sid sock hlive).1, ?_⟩
  · intro db uid u hfind hact hhid
    have hhot : lookupHotel db u.hotelId = none := by
      rw [hhid]
      rfl
    simp [authenticate, hfind, hact, hhot]
  · intro st0 c hc
    constructor
    · show registerPresence st0.connectedUsers c.hotelId sid = st0.connectedUsers
      rw [hc]
      rfl
    · exact mapGet_mapSet_self _ _ _
  · intro T hmem
    have hT := getConnectedUsers_tenant hinv T _ hmem
    rw [show (userInfoOf sock.conn).hotelId = sock.conn.hotelId from rfl, hnull] at hT
    cases hT
  · intro T role event data now hmem
    cases hcu : mapGet st.connectedUsers T with
    | none =>
      rw [show broadcastToRole st T role event data now = [] by
        simp [broadcastToRole, hcu]] at hmem
      cases hmem
    | some s =>
      rw [broadcastToRole_fst hcu] at hmem
      exact hnotin T s hcu (List.mem_filter.1 hmem).1
  · exact mapGet_mapDelete_self _ _

/-! ### Concrete fixtures -/

/-- A manager of hotel 1. -/
def connA : Conn :=
  { userId := 1, userRole := "hotel_manager", hotelId := some 1,
    userName := "Alice", userEmail := "alice@h1.test" }

/-- A front-desk user of hotel 2. -/
def connB : Conn :=
  { userId := 2, userRole := "front_desk", hotelId := some 2,
    userName := "Bob", userEmail := "bob@h2.test" }

/-- A user with a null hotel field. -/
def connN : Conn :=
  { userId := 3, userRole := "platform_admin", hotelId := none,
    userName := "Pat", userEmail := "pat@plat.test" }

/-- A front-desk user of hotel 1, connected twice below. -/
def connD : Conn :=
  { userId := 7, userRole := "front_desk", hotelId := some 1,
    userName := "Dana", userEmail := "dana@h1.test" }

/-- Two sockets from two tenants. -/
def stW : ServerState := (onConnection (onConnection initState "A" connA).1 "B" connB).1

/-- State `stW` plus a socket whose hotel field is null. -/
def stN : ServerState := (onConnection stW "N" connN).1

/-- The same user connected twice (two browser tabs) under tenant 1. -/
def stDup : ServerState :=
  (onConnection (onConnection initState "D1" connD).1 "D2" connD).1

/-- State `stW` after socket A explicitly joined the housekeeping sub-channel. -/
def stJoin : ServerState := (onJoinRoom stW "A" "housekeeping").1

/-- The socket record of A inside `stW`. -/
def sockA : Sock := { conn := connA, rooms := [hotelRoomStr (some 1)] }

theorem reachable_stW : Reachable stW := by
  have h1 : Reachable (onConnection initState "A" connA).1 :=
    Reachable.step Reachable.init (Step.connect initState "A" connA rfl)
  exact Reachable.step h1
    (Step.connect (onConnection initState "A" connA).1 "B" connB (by decide))

theorem reachable_stN : Reachable stN :=
  Reachable.step reachable_stW (Step.connect stW "N" connN (by decide))

theorem reachable_stDup : Reachable stDup := by
  have h1 : Reachable (onConnection initState "D1" connD).1 :=
    Reachable.step Reachable.init (Step.connect initState "D1" connD rfl)
  exact Reachable.step h1
    (Step.connect (onConnection initState "D1" connD).1 "D2" connD (by decide))

/-- A hotel with an active subscription. -/
def hotelActive : HotelRec := { id := 1, name := "Grand", subscriptionStatus := "active" }

/-- A hotel whose subscription has lapsed. -/
def hotelExpired : HotelRec := { id := 2, name := "Plaza", subscriptionStatus := "expired" }

/-- An active manager of the active hotel. -/
def userOk : UserRec :=
  { id := 1, isActive := true, role := "hotel_manager", name := "Alice",
    email := "alice@h1.test", hotelId := some 1 }

/-- A deactivated user. -/
def userInactive : UserRec :=
  { id := 2, isActive := false, role := "front_desk", name := "Bob",
    email := "bob@h1.test", hotelId := some 1 }

/-- An active user of the lapsed hotel. -/
def userLapsed : UserRec :=
  { id := 3, isActive := true, role := "hotel_manager", name := "Carol",
    email := "carol@h2.test", hotelId := some 2 }

/-- An active user with no hotel. -/
def userNull : UserRec :=
  { id := 4, isActive := true, role := "platform_admin", name := "Pat",
    email := "pat@plat.test", hotelId := none }

/-- The external store used by the authentication witnesses. -/
def dbW : Db :=
  { users := [userOk, userInactive, userLapsed, userNull],
    hotels := [hotelActive, hotelExpired] }

/-! ### Witnesses and counterexample -/

/-- Witness for C1 at concrete inputs: socket A (tenant 1) receives nothing
  from any dispatcher call for tenant 2. -/
theorem crossTenantIsolation_witness :
    ("A" : SocketId) ∉ (broadcastToHotel stW 2 "task_completed"
      [("taskId", JsVal.vNum 5)] "T0").map Prod.fst ∧
    ("A" : SocketId) ∉ (broadcastToRole stW 2 "hotel_manager" "task_completed"
      [("taskId", JsVal.vNum 5)] "T0").map Prod.fst ∧
    ("A" : SocketId) ∉ (broadcastToRoom stW 2 "housekeeping" "task_completed"
      [("taskId", JsVal.vNum 5)] "T0").map Prod.fst ∧
    subRoomStr (some 1) "housekeeping" ≠ subRoomStr (some 2) "housekeeping" :=
  crossTenantIsolation stW "A" sockA 1 2 "hotel_manager" "task_completed"
    "housekeeping" [("taskId", JsVal.vNum 5)] "T0"
    reachable_stW (by decide) rfl (by decide)

/-- Witness for C2 at concrete inputs: the role broadcast for tenant 1 /
  role `hotel_manager` reaches exactly socket A, and the call for a tenant
  with no presence entry is the empty delivery list. -/
theorem broadcastToRole_exact_witness :
    (("A" : SocketId) ∈ (broadcastToRole stW 1 "hotel_manager" "task_completed"
        [] "T0").map Prod.fst ↔
      ∃ sock, mapGet stW.liveSockets "A" = some sock ∧
        sock.conn.hotelId = some 1 ∧ sock.conn.userRole = "hotel_manager") ∧
    (("B" : SocketId) ∈ (broadcastToRole stW 1 "hotel_manager" "task_completed"
        [] "T0").map Prod.fst ↔
      ∃ sock, mapGet stW.liveSockets "B" = some sock ∧
        sock.conn.hotelId = some 1 ∧ sock.conn.userRole = "hotel_manager") ∧
    ((broadcastToRole stW 1 "hotel_manager" "task_completed" [] "T0").map Prod.fst).Nodup ∧
    broadcastToRole stW 3 "hotel_manager" "task_completed" [] "T0" = [] :=
  ⟨(broadcastToRole_exact stW 1 "hotel_manager" "task_completed" [] "T0"
      reachable_stW).1 "A",
   (broadcastToRole_exact stW 1 "hotel_manager" "task_completed" [] "T0"
      reachable_stW).1 "B",
   (broadcastToRole_exact stW 1 "hotel_manager" "task_completed" [] "T0"
      reachable_stW).2.1,
   (broadcastToRole_exact stW 3 "hotel_manager" "task_completed" [] "T0"
      reachable_stW).2.2 (by decide)⟩

/-- Witness for C4 at a concrete delivery: the delivered payload's
  `timestamp` is the dispatch-time clock reading `T1`, even though the
  caller supplied a `timestamp` of its own. -/
theorem dispatcherTimestamps_witness :
    mapGet (stamp [("timestamp", JsVal.vStr "caller")] "T1") "timestamp"
      = some (JsVal.vStr "T1") :=
  (dispatcherTimestamps stJoin 1 "hotel_manager" "housekeeping" "task_completed"
    [("timestamp", JsVal.vStr "caller")] "T1"
    ("A", "task_completed", stamp [("timestamp", JsVal.vStr "caller")] "T1")).1
    (by decide)

/-- Witness for C6 at a concrete store: each failure class yields its own
  distinct error, and a valid token of an active user of an active hotel is
  admitted. -/
theorem authRefusalClasses_witness :
    authenticate .noToken dbW = .error .authenticationRequired ∧
    authenticate .badToken dbW = .error .authenticationFailed ∧
    authenticate (.valid 99) dbW = .error .invalidUser ∧
    authenticate (.valid 2) dbW = .error .invalidUser ∧
    authenticate (.valid 3) dbW = .error .hotelSubscriptionInactive ∧
    authenticate (.valid 1) dbW = .ok (connOf userOk) :=
  ⟨(authRefusalClasses .noToken dbW).2.1 rfl,
   (authRefusalClasses .badToken dbW).2.2.1 rfl,
   (authRefusalClasses (.valid 99) dbW).2.2.2.1 99 rfl (Or.inl (by decide)),
   (authRefusalClasses (.valid 2) dbW).2.2.2.1 2 rfl
     (Or.inr ⟨userInactive, by decide, rfl⟩),
   (authRefusalClasses (.valid 3) dbW).2.2.2.2.1 3 userLapsed hotelExpired rfl
     (by decide) rfl (by decide) (by decide) (by decide),
   rfl⟩

/-- Witness for C7 at a concrete failed attempt (an expired credential,
  i.e. `jwt.verify` throws): the state and tenant 2's count are unchanged. -/
theorem authFailureFrame_witness :
    handleConnectionAttempt stW "Z" .badToken dbW
      = (stW, .refused .authenticationFailed) ∧
    getConnectedUsersCount (handleConnectionAttempt stW "Z" .badToken dbW).1 2
      = getConnectedUsersCount stW 2 :=
  ⟨(authFailureFrame stW "Z" .badToken dbW .authenticationFailed rfl).1,
   ((authFailureFrame stW "Z" .badToken dbW .authenticationFailed rfl).2.1 2).1⟩

/-- Witness for C8 at concrete inputs: joining the unknown name `lobby` is
  a silent no-op, joining `housekeeping` adds the tenant-scoped room and is
  acknowledged. -/
theorem joinRoomAllowList_witness :
    ((onJoinRoom stW "A" "lobby").1 = stW ∧ (onJoinRoom stW "A" "lobby").2 = []) ∧
    ((∃ sock', mapGet (onJoinRoom stW "A" "housekeeping").1.liveSockets "A" = some sock' ∧
        sock'.conn = sockA.conn ∧
        sock'.rooms = setAdd sockA.rooms (subRoomStr sockA.conn.hotelId "housekeeping") ∧
        subRoomStr sockA.conn.hotelId "housekeeping" ∈ sock'.rooms) ∧
      (onJoinRoom stW "A" "housekeeping").2 = [.roomJoined "A" "housekeeping"]) :=
  ⟨(joinRoomAllowList stW "A" sockA "lobby" (by decide)).1 (by decide),
   (joinRoomAllowList stW "A" sockA "housekeeping" (by decide)).2 (by decide)⟩

/-- Witness for C9 at concrete inputs: tenant 1's entry in `stW` is the
  nonempty set containing A; an absent tenant counts 0; disconnecting A,
  tenant 1's only connection, removes tenant 1's entry entirely. -/
theorem presenceNoEmptyEntries_witness :
    (["A"] : List SocketId) ≠ [] ∧
    getConnectedUsersCount stW 3 = 0 ∧
    mapGet (onDisconnect stW "A" sockA.conn).1.connectedUsers 1 = none :=
  ⟨(presenceNoEmptyEntries stW reachable_stW).1 1 ["A"] (by decide),
   (presenceNoEmptyEntries stW reachable_stW).2.1 3 (by decide),
   (presenceNoEmptyEntries stW reachable_stW).2.2 "A" sockA 1 (by decide) rfl
     (by decide)⟩

/-- Counterexample for C3 as stated: in the reachable state `stDup` the
  same user is connected twice (sockets D1 and D2, identical identity);
  immediately after D2 disconnects, `count(1)` has decreased by exactly 1
  but `list(1)` still contains D2's identity, because D1 carries the same
  identity record. -/
theorem disconnectIdentityPersists_cex :
    Reachable stDup ∧
    mapGet stDup.liveSockets "D2" = some { conn := connD, rooms := [hotelRoomStr (some 1)] } ∧
    getConnectedUsersCount (onDisconnect stDup "D2" connD).1 1 + 1
      = getConnectedUsersCount stDup 1 ∧
    userInfoOf connD ∈ getConnectedUsers (onDisconnect stDup "D2" connD).1 1 :=
  ⟨reachable_stDup, by decide, by decide, by decide⟩

/-- Witness for the amended C3 at concrete inputs. -/
theorem countInvariantAndDisconnect_witness :
    getConnectedUsersCount stW 1 =
      (stW.liveSockets.filter (fun p => p.2.conn.hotelId == some 1)).length ∧
    (getConnectedUsers stW 1).Perm
      ((stW.liveSockets.filter (fun p => p.2.conn.hotelId == some 1)).map
        (fun p => userInfoOf p.2.conn)) ∧
    getConnectedUsersCount (onDisconnect stW "A" sockA.conn).1 1 + 1
      = getConnectedUsersCount stW 1 ∧
    (getConnectedUsers stW 1).Perm
      (userInfoOf sockA.conn :: getConnectedUsers (onDisconnect stW "A" sockA.conn).1 1) :=
  ⟨(countInvariantAndDisconnect stW "A" sockA 1 reachable_stW (by decide) rfl).1 1,
   (countInvariantAndDisconnect stW "A" sockA 1 reachable_stW (by decide) rfl).2.1 1,
   (countInvariantAndDisconnect stW "A" sockA 1 reachable_stW (by decide) rfl).2.2.1,
   (countInvariantAndDisconnect stW "A" sockA 1 reachable_stW (by decide) rfl).2.2.2⟩

/-- Witness for C10 at concrete inputs: the null-hotel socket N in `stN`. -/
theorem nullTenantConnection_witness :
    authenticate (.valid 4) dbW = .ok (connOf userNull) ∧
    ((onConnection initState "N" connN).1.connectedUsers = initState.connectedUsers ∧
      mapGet (onConnection initState "N" connN).1.socketToUser "N"
        = some (userInfoOf connN)) ∧
    (("N" : SocketId) ∉ (["A"] : List SocketId)) ∧
    userInfoOf connN ∉ getConnectedUsers stN 1 ∧
    ("N" : SocketId) ∉ (broadcastToRole stN 1 "platform_admin" "task_completed"
      [] "T0").map Prod.fst ∧
    mapGet stN.socketToUser "N" = some (userInfoOf connN) ∧
    mapGet (onDisconnect stN "N" connN).1.socketToUser "N" = none :=
  ⟨(nullTenantConnection stN "N" { conn := connN, rooms := [] } reachable_stN
      (by decide) rfl).1 dbW 4 userNull (by decide) rfl rfl,
   (nullTenantConnection stN "N" { conn := connN, rooms := [] } reachable_stN
      (by decide) rfl).2.1 initState connN rfl,
   (nullTenantConnection stN "N" { conn := connN, rooms := [] } reachable_stN
      (by decide) rfl).2.2.1 1 ["A"] (by decide),
   (nullTenantConnection stN "N" { conn := connN, rooms := [] } reachable_stN
      (by decide) rfl).2.2.2.1 1,
   (nullTenantConnection stN "N" { conn := connN, rooms := [] } reachable_stN
      (by decide) rfl).2.2.2.2.1 1 "platform_admin" "task_completed" [] "T0",
   (nullTenantConnection stN "N" { conn := connN, rooms := [] } reachable_stN
      (by decide) rfl).2.2.2.2.2.1,
   (nullTenantConnection stN "N" { conn := connN, rooms := [] } reachable_stN
      (by decide) rfl).2.2.2.2.2.2⟩

end HotelWS
